import Mathlib

/-!
Verification of the argviz outline codec and graph model.

This file gives a shallow embedding, in Lean 4, of the core of the
argviz repository:

* src/argviz/model.py        (GraphModel, reference validation, subgraph)
* src/argviz/exporters/outline.py  (OutlineParser, OutlineExporter)

Python dictionaries are modelled as insertion-ordered association lists
(later insertion of an existing key overwrites the value in place, as in
Python).  Fresh random identifiers (secrets.token_hex) are modelled by an
injective counter-based generator, which is faithful for every structural
property considered here.  Python string operations (split, strip, the two
regular expressions of the line parser) are translated character by
character; regular-expression backtracking has been resolved into the
equivalent deterministic scans, documented at each definition.
-/

namespace Argviz

/-! ## Character and string utilities (Python semantics) -/

/-- Whitespace characters recognised by the Python regex class and str.strip
for the ASCII inputs of this format. -/
def isPySpace (c : Char) : Bool :=
  c == ' ' || c == '\t' || c == '\n' || c == '\r' || c == '\x0b' || c == '\x0c'

/-- Rebuild a string from a character list. -/
def strOf (cs : List Char) : String := ⟨cs⟩

/-- Python text.split(sep) for a one-character separator: always returns at
least one (possibly empty) piece. -/
def splitOnChar (sep : Char) : List Char → List (List Char)
  | [] => [[]]
  | c :: cs =>
    if c = sep then [] :: splitOnChar sep cs
    else
      match splitOnChar sep cs with
      | [] => [[c]]
      | l :: ls => (c :: l) :: ls

/-- Python sep.join for joining chunks with a one-character separator. -/
def joinWithChar (sep : Char) : List (List Char) → List Char
  | [] => []
  | [l] => l
  | l :: ls => l ++ sep :: joinWithChar sep ls

/-- Join strings with a separator string, as Python sep.join. -/
def joinSep (sep : String) : List String → String
  | [] => ""
  | [s] => s
  | s :: rest => s ++ sep ++ joinSep sep rest

/-- Strict code-point lexicographic order on character lists, matching the
comparison Python uses on str. -/
def charsLt : List Char → List Char → Bool
  | [], [] => false
  | [], _ :: _ => true
  | _ :: _, [] => false
  | a :: as, b :: bs =>
    if a.toNat < b.toNat then true
    else if b.toNat < a.toNat then false
    else charsLt as bs

/-- Strict string order, Python str comparison. -/
def strLtB (a b : String) : Bool := charsLt a.data b.data

/-- Reflexive string order derived from the strict one. -/
def strLeB (a b : String) : Bool := !(strLtB b a)

/-- Lexicographic order on string pairs, Python tuple comparison. -/
def pairLeB (p q : String × String) : Bool :=
  if p.1 = q.1 then strLeB p.2 q.2 else strLtB p.1 q.1

/-! ## Insertion-ordered dictionaries (Python dict) -/

/-- Overwrite-in-place insertion: existing keys keep their position, new
keys go to the end, exactly as a Python dict assignment. -/
def dinsert (k : String) (v : α) : List (String × α) → List (String × α)
  | [] => [(k, v)]
  | p :: rest => if p.1 = k then (k, v) :: rest else p :: dinsert k v rest

/-- Dictionary lookup, Python dict.get. -/
def dget? (k : String) : List (String × α) → Option α
  | [] => none
  | p :: rest => if p.1 = k then some p.2 else dget? k rest

/-- Key membership, Python in-operator on a dict. -/
def dmem (k : String) (d : List (String × α)) : Bool := (dget? k d).isSome

/-! ## Stable sort (Python list.sort)

Python list.sort is stable; every stable sort with respect to a total
preorder computes the same list, so insertion sort is a faithful model. -/

/-- Insert x after every element y with le y x, before the first strictly
greater element; on a sorted list this is the stable insertion position. -/
def insertLe (le : α → α → Bool) (x : α) : List α → List α
  | [] => [x]
  | y :: ys => if le y x then y :: insertLe le x ys else x :: y :: ys

/-- Stable sort by the boolean preorder le (Python list.sort with a key). -/
def sortStableBy (le : α → α → Bool) (l : List α) : List α :=
  l.foldl (fun acc x => insertLe le x acc) []

/-! ## Errors

OutlineParseError carries the 1-based line number and a message;
InvalidReferenceError carries the reference kind, the context (the link id)
and the dangling id; ValueError / KeyError from get_subgraph are the usage
and not-found errors. -/

/-- Error values raised by the embedded code paths. -/
inductive ModelError where
  | lineError (lineNumber : Nat) (message : String)
  | refError (refType : String) (context : String) (refId : String)
  | usageError (message : String)
  | notFoundError (refId : String)
deriving DecidableEq, Repr

/-- Rendered message of InvalidReferenceError, from model.py line 69. -/
def refErrorMessage (refType context refId : String) : String :=
  "Invalid " ++ refType ++ " in " ++ context ++ ": " ++ "\x27" ++ refId ++ "\x27 does not exist"

/-! ## The line parser (OutlineParser._parse_line)

LINE_PATTERN is
  (0) leading whitespace (captured, length checked modulo 3),
  (1) a number matching digits ( dot digits )* ( w digits )?,
  (2) an optional period, then mandatory whitespace,
  (3) a bracketed token, an optional second bracketed token,
  (4) mandatory whitespace, then nonempty free content.
The only regex choice points that need backtracking are the optional second
bracket (if matching it leaves no valid tail, the bracket text belongs to
the content) and the trailing whitespace-plus-content (if everything after
the last bracket is whitespace, the final whitespace character becomes the
content provided at least one whitespace character remains before it);
both are resolved below exactly as the Python re engine does. -/

/-- Parsed fields of one outline line, mirroring the ParsedLine dataclass. -/
structure ParsedLine where
  lineNumber : Nat
  indentLevel : Nat
  number : String
  polarity : Option String
  nodeType : String
  content : Option String
  backref : Option String
  isWarrant : Bool
deriving DecidableEq, Repr

/-- Greedy digit scan: the matched digits and the rest. -/
def scanDigits : List Char → (List Char × List Char)
  | [] => ([], [])
  | c :: cs =>
    if c.isDigit then
      match scanDigits cs with
      | (d, r) => (c :: d, r)
    else ([], c :: cs)

/-- Greedy scan of ( dot digits )* groups; fuel bounds the iteration count
and is always called with at least the length of the input, which is
sufficient because every iteration consumes at least two characters. -/
def dotGroupsAux : Nat → List Char → (List Char × List Char)
  | 0, s => ([], s)
  | Nat.succ n, s =>
    match s with
    | '.' :: rest =>
      match scanDigits rest with
      | (ds, rr) =>
        if ds.length = 0 then ([], s)
        else
          match dotGroupsAux n rr with
          | (more, fin) => ('.' :: (ds ++ more), fin)
    | other => ([], other)

/-- Greedy scan of the optional ( w digits ) suffix of a number. -/
def matchWGroup : List Char → (List Char × List Char)
  | 'w' :: rest =>
    match scanDigits rest with
    | (ds, rr) => if ds.length = 0 then ([], 'w' :: rest) else ('w' :: ds, rr)
  | s => ([], s)

/-- Match the number part of LINE_PATTERN, returning it and the rest. -/
def matchNumber (s : List Char) : Option (List Char × List Char) :=
  match scanDigits s with
  | (d1, r1) =>
    if d1.length = 0 then none
    else
      match dotGroupsAux r1.length r1 with
      | (dots, r2) =>
        match matchWGroup r2 with
        | (wpart, r3) => some (d1 ++ dots ++ wpart, r3)

/-- Match one bracketed token: an opening bracket, a nonempty body without
closing brackets, a closing bracket; returns the body and the rest. -/
def matchBracket : List Char → Option (List Char × List Char)
  | '[' :: rest =>
    let body := rest.takeWhile (fun c => c != ']')
    match rest.dropWhile (fun c => c != ']') with
    | ']' :: tail => if body.length = 0 then none else some (body, tail)
    | _ => none
  | _ => none

/-- Match the regex tail of whitespace-plus-content against a suffix: at
least one whitespace character, then a nonempty content capture that may
itself be a single trailing whitespace character when nothing else is
left. -/
def matchTail (s : List Char) : Option (List Char) :=
  let ws := s.takeWhile isPySpace
  let rest := s.dropWhile isPySpace
  if ws.length = 0 then none
  else if rest.length = 0 then
    if 2 ≤ ws.length then ws.getLast?.map (fun c => [c]) else none
  else some rest

/-- Full LINE_PATTERN match: returns the indentation length, the number, the
first bracket body, the optional second bracket body and the raw content
capture, or none on a grammar mismatch. -/
def matchLineCore (cs : List Char) :
    Option (Nat × String × String × Option String × List Char) :=
  let indentLen := (cs.takeWhile isPySpace).length
  let r0 := cs.dropWhile isPySpace
  match matchNumber r0 with
  | none => none
  | some (num, r1) =>
    let r2 := if r1.head? = some '.' then r1.tail else r1
    let ws := r2.takeWhile isPySpace
    let r3 := r2.dropWhile isPySpace
    if ws.length = 0 then none
    else
      match matchBracket r3 with
      | none => none
      | some (b1, r4) =>
        let withSecond : Option (String × List Char) :=
          let ws2 := r4.takeWhile isPySpace
          let r5 := r4.dropWhile isPySpace
          if ws2.length = 0 then none
          else
            match matchBracket r5 with
            | none => none
            | some (b2, r6) =>
              match matchTail r6 with
              | none => none
              | some content => some (strOf b2, content)
        match withSecond with
        | some (b2, content) => some (indentLen, strOf num, strOf b1, some b2, content)
        | none =>
          match matchTail r4 with
          | none => none
          | some content => some (indentLen, strOf num, strOf b1, none, content)

/-- Match BACKREF_PATTERN: the whole content is an opening parenthesis,
the word see, whitespace, a dotted number without a w suffix, and a closing
parenthesis; returns the referenced number. -/
def matchBackref (cs : List Char) : Option String :=
  match cs with
  | '(' :: 's' :: 'e' :: 'e' :: rest =>
    let ws := rest.takeWhile isPySpace
    let r1 := rest.dropWhile isPySpace
    if ws.length = 0 then none
    else
      match scanDigits r1 with
      | (d1, r2) =>
        if d1.length = 0 then none
        else
          match dotGroupsAux r2.length r2 with
          | (dots, r3) =>
            match r3 with
            | [')'] => some (strOf (d1 ++ dots))
            | _ => none
  | _ => none

/-- The malformed-line message of _parse_line. -/
def malformedMessage (cs : List Char) : String :=
  "Malformed line: " ++ "\x27" ++ strOf cs ++ "\x27"

/-- The invalid-indentation message of _parse_line. -/
def indentMessage (n : Nat) : String :=
  "Invalid indentation: expected multiple of 3 spaces, got " ++ toString n

/-- The unresolved back-reference message of parse. -/
def backrefMessage (b : String) : String :=
  "Back-reference " ++ "\x27" ++ b ++ "\x27 not found"

/-- OutlineParser._parse_line: the regex match, the indentation check, and
the assembly of the ParsedLine fields (Conclusion lines keep their content
verbatim and have no polarity; other lines read the polarity from the first
bracket, default the node type to Proposition, and recognise the
back-reference form). -/
def parseLineE (cs : List Char) (lineNumber : Nat) : Except ModelError ParsedLine :=
  match matchLineCore cs with
  | none =>
    .error (.lineError lineNumber (malformedMessage cs))
  | some (indentLen, number, bracket1, bracket2, contentChars) =>
    if indentLen % 3 ≠ 0 then
      .error (.lineError lineNumber (indentMessage indentLen))
    else
      let isW := number.data.contains 'w'
      if bracket1 = "Conclusion" then
        .ok { lineNumber := lineNumber, indentLevel := indentLen / 3, number := number,
              polarity := none, nodeType := "Conclusion",
              content := some (strOf contentChars), backref := none, isWarrant := isW }
      else
        match matchBackref contentChars with
        | some b =>
          .ok { lineNumber := lineNumber, indentLevel := indentLen / 3, number := number,
                polarity := some bracket1, nodeType := bracket2.getD "Proposition",
                content := none, backref := some b, isWarrant := isW }
        | none =>
          .ok { lineNumber := lineNumber, indentLevel := indentLen / 3, number := number,
                polarity := some bracket1, nodeType := bracket2.getD "Proposition",
                content := some (strOf contentChars), backref := none, isWarrant := isW }

/-- OutlineParser._get_parent_number: for a warrant number, everything
before the first w; otherwise drop the last dotted segment, with none for a
single-segment number. -/
def getParentNumber (number : String) : Option String :=
  if number.data.contains 'w' then
    some (strOf (number.data.takeWhile (fun c => c != 'w')))
  else
    let parts := splitOnChar '.' number.data
    if parts.length ≤ 1 then none
    else some (strOf (joinWithChar '.' parts.dropLast))

/-! ## The graph model (model.py)

Node and link records keep the fields the core reads.  A node dict always
carries id, type and content; content is an Option so that a record without
the content key (possible for loader-supplied data) is representable, with
none meaning the key is absent.  A link dict carries id, source_ids, an
optional target_id and a polarity; the constructor only validates a target
that is present and truthy (a missing or empty target_id is skipped by the
if statement on model.py line 56). -/

/-- One node record. -/
structure NodeRec where
  id : String
  nodeType : String
  content : Option String
deriving DecidableEq, Repr

/-- One link record. -/
structure LinkRec where
  id : String
  source_ids : List String
  target_id : Option String
  polarity : String
deriving DecidableEq, Repr

/-- A constructed GraphModel: the two id-keyed registries plus the edge
list of the underlying directed graph, in insertion order. -/
structure GraphModel where
  nodes : List (String × NodeRec)
  links : List (String × LinkRec)
  edges : List (String × String)
deriving DecidableEq, Repr

/-- Python truthiness filter on the optional target id: present and
nonempty. -/
def truthyTarget : Option String → Option String
  | none => none
  | some s => if s = "" then none else some s

/-- GraphModel._validate_reference: the id must be a registered node or
link. -/
def validateRef (nodesD : List (String × NodeRec)) (linksD : List (String × LinkRec))
    (refId context refType : String) : Except ModelError Unit :=
  if dmem refId nodesD || dmem refId linksD then .ok ()
  else .error (.refError refType context refId)

/-- Source loop of phase 3: validate each source in order and append its
edge into the link. -/
def validateSources (nodesD : List (String × NodeRec)) (linksD : List (String × LinkRec))
    (linkId : String) : List String → List (String × String) →
    Except ModelError (List (String × String))
  | [], es => .ok es
  | sid :: rest, es =>
    match validateRef nodesD linksD sid linkId "link source" with
    | .error e => .error e
    | .ok _ => validateSources nodesD linksD linkId rest (es ++ [(sid, linkId)])

/-- Validate one link entry and produce its edges: one edge from each
source to the link, then one edge from the link to a truthy target. -/
def linkEdges (nodesD : List (String × NodeRec)) (linksD : List (String × LinkRec))
    (linkId : String) (link : LinkRec) : Except ModelError (List (String × String)) :=
  match validateSources nodesD linksD linkId link.source_ids [] with
  | .error e => .error e
  | .ok es =>
    match truthyTarget link.target_id with
    | none => .ok es
    | some t =>
      match validateRef nodesD linksD t linkId "link target" with
      | .error e => .error e
      | .ok _ => .ok (es ++ [(linkId, t)])

/-- Phase 3 of the constructor: validate every registered link and collect
the edge list, failing at the first dangling reference. -/
def phase3 (nodesD : List (String × NodeRec)) (linksD : List (String × LinkRec)) :
    List (String × LinkRec) → Except ModelError (List (String × String))
  | [] => .ok []
  | (lid, l) :: rest =>
    match linkEdges nodesD linksD lid l with
    | .error e => .error e
    | .ok es =>
      match phase3 nodesD linksD rest with
      | .error e => .error e
      | .ok es2 => .ok (es ++ es2)

/-- Phase 1 of the constructor: the node registry keyed by id. -/
def nodeRegistry (nodes : List NodeRec) : List (String × NodeRec) :=
  nodes.foldl (fun d n => dinsert n.id n d) []

/-- Phase 2 of the constructor: the link registry keyed by id. -/
def linkRegistry (links : List LinkRec) : List (String × LinkRec) :=
  links.foldl (fun d l => dinsert l.id l d) []

/-- GraphModel.__init__: register all nodes, register all links, then
validate every reference of every registered link. -/
def buildGraphModel (nodes : List NodeRec) (links : List LinkRec) :
    Except ModelError GraphModel :=
  let nodesD := nodeRegistry nodes
  let linksD := linkRegistry links
  match phase3 nodesD linksD linksD with
  | .error e => .error e
  | .ok edges => .ok { nodes := nodesD, links := linksD, edges := edges }

/-- List of distinct elements in first-occurrence order. -/
def dedupFirst : List String → List String :=
  go []
where
  go (seen : List String) : List String → List String
    | [] => []
    | x :: xs => if seen.contains x then go seen xs else x :: go (x :: seen) xs

/-- Predecessors of an id in the union graph (networkx DiGraph
predecessors: distinct sources of edges into the id, in edge insertion
order). -/
def GraphModel.predecessors (m : GraphModel) (nodeId : String) : List String :=
  dedupFirst (m.edges.filterMap (fun e => if e.2 = nodeId then some e.1 else none))

/-- Successors of an id in the union graph. -/
def GraphModel.successors (m : GraphModel) (nodeId : String) : List String :=
  dedupFirst (m.edges.filterMap (fun e => if e.1 = nodeId then some e.2 else none))

/-- GraphModel.get_incoming_links: link records among the predecessors. -/
def GraphModel.getIncomingLinks (m : GraphModel) (nodeId : String) : List LinkRec :=
  (m.predecessors nodeId).filterMap (fun p => dget? p m.links)

/-! ## Subgraph extraction (GraphModel.get_subgraph) -/

/-- Set union on membership lists: add the new elements that are not yet
present, preserving first-occurrence order (only membership is ever
observed downstream). -/
def sunion (a b : List String) : List String :=
  a ++ b.filter (fun x => !a.contains x)

/-- One bidirectional-BFS phase: depth plus one rounds of collecting the
frontier and stepping to unvisited neighbours, as the inner bfs closure of
get_subgraph. -/
def bfsLoop (neigh : String → List String) :
    Nat → List String → List String → List String
  | 0, collected, _ => collected
  | Nat.succ n, collected, frontier =>
    let collected2 := sunion collected frontier
    let nextF := frontier.foldl (fun acc u => sunion acc (neigh u)) []
    bfsLoop neigh n collected2 (nextF.filter (fun x => !collected2.contains x))

/-- The id set collected by get_subgraph: an upward phase following
successors, then a downward phase following predecessors, both started
from the roots and sharing one collected set. -/
def subgraphCollected (m : GraphModel) (rootIds : List String)
    (depthUp depthDown : Nat) : List String :=
  let up := bfsLoop m.successors (depthUp + 1) [] rootIds
  bfsLoop m.predecessors (depthDown + 1) up rootIds

/-- Keep a link of the subgraph when the link id itself was collected,
every source id was collected, and a truthy target id was collected. -/
def keepLink (collected : List String) (lid : String) (l : LinkRec) : Bool :=
  collected.contains lid &&
  l.source_ids.all (fun sid => collected.contains sid) &&
  (match truthyTarget l.target_id with
   | none => true
   | some t => collected.contains t)

/-- GraphModel.get_subgraph: validate the depths, validate the roots,
collect ids by bidirectional BFS, then rebuild a new GraphModel from the
collected nodes and the links kept by keepLink. -/
def GraphModel.getSubgraph (m : GraphModel) (rootIds : List String)
    (depthUp depthDown : Int) : Except ModelError GraphModel :=
  if depthUp < 0 || depthDown < 0 then
    .error (.usageError "depth_up and depth_down must be non-negative")
  else
    match rootIds.find? (fun r => !(dmem r m.nodes || dmem r m.links)) with
    | some r => .error (.notFoundError r)
    | none =>
      let collected := subgraphCollected m rootIds depthUp.toNat depthDown.toNat
      let newNodes := (m.nodes.filter (fun p => collected.contains p.1)).map (·.2)
      let newLinks := (m.links.filter (fun p => keepLink collected p.1 p.2)).map (·.2)
      buildGraphModel newNodes newLinks

/-! ## The reconstructor (OutlineParser.parse)

The passes of parse, in order: line scanning, node creation for ordinary
lines, node creation for warrant lines, immediate single-source link
creation together with co-premise grouping, co-premise link creation, and
warrant link creation.  The outline-number registries are dictionaries
from numbers to ids; fresh node and link ids are generated by counters. -/

/-- Registry from outline numbers to generated ids. -/
abbrev NMap := List (String × String)

/-- Co-premise groups: a dictionary keyed by parent number and polarity,
holding member lines in arrival order (collections.defaultdict of list). -/
abbrev Groups := List ((String × String) × List ParsedLine)

/-- Fresh node identifier (models node_ plus secrets.token_hex). -/
def freshNodeId (k : Nat) : String := "node_" ++ toString k

/-- Fresh link identifier (models link_ plus secrets.token_hex). -/
def freshLinkId (k : Nat) : String := "link_" ++ toString k

/-- Append a member to its group, creating the group at the end of the
registry on first use, as a defaultdict does. -/
def gappend (key : String × String) (p : ParsedLine) : Groups → Groups
  | [] => [(key, [p])]
  | g :: gs => if g.1 = key then (g.1, g.2 ++ [p]) :: gs else g :: gappend key p gs

/-- Scan the split lines: skip blank lines, parse the others with their
1-based physical number, failing at the first malformed line. -/
def scanLines (i : Nat) : List (List Char) → Except ModelError (List ParsedLine)
  | [] => .ok []
  | l :: ls =>
    if l.all isPySpace then scanLines (i + 1) ls
    else
      match parseLineE l i with
      | .error e => .error e
      | .ok p =>
        match scanLines (i + 1) ls with
        | .error e => .error e
        | .ok ps => .ok (p :: ps)

/-- One node-creation pass of parse (want false: ordinary lines, the first
pass; want true: warrant lines, the second pass).  Back-reference lines
never create nodes.  Returns the next counter value, the updated
number-to-node-id registry and the created node records in order. -/
def nodesPass (want : Bool) (k : Nat) (nm : NMap) :
    List ParsedLine → (Nat × NMap × List NodeRec)
  | [] => (k, nm, [])
  | p :: ps =>
    if p.backref.isSome || (p.isWarrant != want) then nodesPass want k nm ps
    else
      let nid := freshNodeId k
      match nodesPass want (k + 1) (dinsert p.number nid nm) ps with
      | (k2, nm2, ns) =>
        (k2, nm2, { id := nid, nodeType := p.nodeType, content := p.content } :: ns)

/-- Both node-creation passes: ordinary nodes first, then warrant nodes,
sharing the id counter and the registry. -/
def buildNodes (lines : List ParsedLine) : NMap × List NodeRec :=
  match nodesPass false 0 [] lines with
  | (k1, nm1, ns1) =>
    match nodesPass true k1 nm1 lines with
    | (_, nm2, ns2) => (nm2, ns1 ++ ns2)

/-- State threaded through the link passes: links created so far,
co-premise groups, the number-to-link-id registry for warrant targeting,
and the link id counter. -/
structure LinkState where
  links : List LinkRec
  groups : Groups
  nlid : NMap
  counter : Nat
deriving DecidableEq, Repr

/-- Initial link-pass state. -/
def LinkState.init : LinkState := { links := [], groups := [], nlid := [], counter := 0 }

/-- Resolve a line to a source node id, raising the unresolved
back-reference error (used only in the immediate link pass; the later
passes use the silent resolveOpt). -/
def resolveSource (nm : NMap) (p : ParsedLine) : Except ModelError (Option String) :=
  match p.backref with
  | some b =>
    match dget? b nm with
    | none => .error (.lineError p.lineNumber (backrefMessage b))
    | some v => .ok (some v)
  | none => .ok (dget? p.number nm)

/-- Silent source resolution by dict.get, used by the co-premise and
warrant passes. -/
def resolveOpt (nm : NMap) (p : ParsedLine) : Option String :=
  match p.backref with
  | some b => dget? b nm
  | none => dget? p.number nm

/-- One step of the link-determination pass: skip conclusions and
warrants; resolve the source (raising on an unresolved back-reference);
when the parent number is registered as a node create the single-source
link immediately and record its id under the line number; otherwise, when
the grandparent is a registered node, add the line to its co-premise
group; otherwise drop the line silently. -/
def linkStep (nm : NMap) (st : LinkState) (p : ParsedLine) : Except ModelError LinkState :=
  if p.nodeType = "Conclusion" then .ok st
  else if p.isWarrant then .ok st
  else
    match getParentNumber p.number with
    | none => .ok st
    | some parent =>
      match resolveSource nm p with
      | .error e => .error e
      | .ok none => .ok st
      | .ok (some src) =>
        match dget? parent nm with
        | some target =>
          let pol := p.polarity.getD "supports"
          let lid := freshLinkId st.counter
          .ok { st with
                links := st.links ++
                  [{ id := lid, source_ids := [src], target_id := some target, polarity := pol }],
                nlid := dinsert p.number lid st.nlid,
                counter := st.counter + 1 }
        | none =>
          match getParentNumber parent with
          | none => .ok st
          | some gp =>
            if dmem gp nm then
              .ok { st with groups := gappend (parent, p.polarity.getD "supports") p st.groups }
            else .ok st

/-- The link-determination pass over all lines. -/
def linkPass (nm : NMap) (st : LinkState) : List ParsedLine → Except ModelError LinkState
  | [] => .ok st
  | p :: ps =>
    match linkStep nm st p with
    | .error e => .error e
    | .ok st2 => linkPass nm st2 ps

/-- Co-premise link creation for one group: resolve the grandparent
target, resolve every member source silently in member order, and when any
source resolved emit one link with all of them, recording its id under the
first resolved member number. -/
def groupStep (nm : NMap) (st : LinkState) (g : (String × String) × List ParsedLine) :
    LinkState :=
  match getParentNumber g.1.1 with
  | none => st
  | some gp =>
    match dget? gp nm with
    | none => st
    | some target =>
      let sources := g.2.filterMap (resolveOpt nm)
      let firstNum := (g.2.find? (fun p => (resolveOpt nm p).isSome)).map (·.number)
      if sources.isEmpty then st
      else
        let lid := freshLinkId st.counter
        { st with
          links := st.links ++
            [{ id := lid, source_ids := sources, target_id := some target, polarity := g.1.2 }],
          nlid := match firstNum with
                  | some fn => dinsert fn lid st.nlid
                  | none => st.nlid,
          counter := st.counter + 1 }

/-- The co-premise link pass, over the groups in key-creation order. -/
def groupPass (nm : NMap) (st : LinkState) : Groups → LinkState
  | [] => st
  | g :: gs => groupPass nm (groupStep nm st g) gs

/-- The warrant link pass: for each warrant line, resolve its source
silently, look up the link id recorded under its parent number, and when
both exist emit a supports link from the warrant node to that link. -/
def warrantPass (nm : NMap) (st : LinkState) : List ParsedLine → LinkState
  | [] => st
  | p :: ps =>
    if !p.isWarrant then warrantPass nm st ps
    else
      match resolveOpt nm p with
      | none => warrantPass nm st ps
      | some src =>
        match getParentNumber p.number with
        | none => warrantPass nm st ps
        | some parent =>
          match dget? parent st.nlid with
          | none => warrantPass nm st ps
          | some tlid =>
            let lid := freshLinkId st.counter
            warrantPass nm
              { st with
                links := st.links ++
                  [{ id := lid, source_ids := [src], target_id := some tlid,
                     polarity := "supports" }],
                counter := st.counter + 1 } ps

/-- OutlineParser.parse: split, scan, build nodes, run the three link
passes, and construct the final GraphModel. -/
def parseOutline (text : String) : Except ModelError GraphModel :=
  match scanLines 1 (splitOnChar '\n' text.data) with
  | .error e => .error e
  | .ok [] => buildGraphModel [] []
  | .ok lines =>
    match buildNodes lines with
    | (nm, nodes) =>
      match linkPass nm LinkState.init lines with
      | .error e => .error e
      | .ok st1 =>
        let st2 := groupPass nm st1 st1.groups
        let st3 := warrantPass nm st2 lines
        buildGraphModel nodes st3.links

/-! ## The exporter (OutlineExporter)

The exporter recurses through the graph guarded by the first-occurrence
registry: a node is recursed into only when unregistered and is registered
first, so the recursion depth is bounded by the graph size.  The embedding
makes termination syntactic with a fuel argument that strictly exceeds any
possible call depth; every theorem about the exporter is either stated on
its non-recursive components or evaluated on concrete inputs where the
fuel is checked by computation. -/

/-- First-occurrence registry of the exporter, node id to outline number. -/
abbrev Reg := List (String × String)

/-- Indentation prefix of three spaces per level. -/
def indentStr (n : Nat) : String := strOf (List.replicate (3 * n) ' ')

/-- The content printed for a node: dict.get of content with the node id
as default. -/
def contentOf (node : NodeRec) (nodeId : String) : String := node.content.getD nodeId

/-- OutlineExporter._format_node_line. -/
def fmtNodeLine (node : NodeRec) (nodeId polarity number : String) (indent : Nat) : String :=
  indentStr indent ++ number ++ " [" ++ polarity ++ "] [" ++ node.nodeType ++ "] " ++
    contentOf node nodeId

/-- Deterministic link order: sort key (polarity, id). -/
def incomingLe (a b : LinkRec) : Bool := pairLeB (a.polarity, a.id) (b.polarity, b.id)

/-- Incoming links of a node, sorted for deterministic output. -/
def sortedIncoming (m : GraphModel) (nodeId : String) : List LinkRec :=
  sortStableBy incomingLe (m.getIncomingLinks nodeId)

/-- Links that target the given link (its warrants), in registry order,
then sorted for deterministic output. -/
def warrantsOf (m : GraphModel) (linkId : String) : List LinkRec :=
  sortStableBy incomingLe ((m.links.map (·.2)).filter (fun l => l.target_id = some linkId))

/-- Defunctionalised call forms of the mutually recursive exporter
helpers; a single structurally recursive interpreter keeps every
evaluation kernel-reducible. -/
inductive ExpCall where
  | linkList (links : List LinkRec) (parentNumber : String) (idx : Nat) (indent : Nat)
  | linkSubtree (link : LinkRec) (number : String) (indent : Nat)
  | sources (pol number : String) (indent srcCount k : Nat) (sids : List String)
  | children (nodeId parentNumber : String) (indent : Nat)
  | warrantLinks (wlinks : List LinkRec) (parentNumber : String) (indent idx : Nat)
  | warrantSources (sids : List String) (parentNumber : String) (indent idx : Nat)

/-- Interpreter for the exporter recursion.  The Nat component of the
result is the running warrant index, meaningful only for warrantSources
calls.  Cases, in order: the link loop of _format_conclusion_tree and
_get_children_lines; _format_link_subtree (source lines, then the warrant
lines of a truthy link id); the source loop of _format_link_subtree
(multi-source links number their sources with inner sub-numbers, a
registered source becomes a back-reference line without recursion, an
unregistered source node is formatted, registered and recursed into);
_get_children_lines; the warrant-link loop of _get_warrant_lines; and the
source loop of _get_warrant_lines (each emitted warrant line takes the
next w sub-number, missing source nodes emit nothing and do not advance
the numbering). -/
def exportGo : Nat → GraphModel → Reg → ExpCall → (Reg × Nat × List String)
  | 0, _, reg, _ => (reg, 0, [])
  | Nat.succ n, m, reg, call =>
    match call with
    | .linkList links parentNumber idx indent =>
      match links with
      | [] => (reg, 0, [])
      | link :: rest =>
        let childNumber := parentNumber ++ "." ++ toString idx
        match exportGo n m reg (.linkSubtree link childNumber indent) with
        | (reg1, _, ls1) =>
          match exportGo n m reg1 (.linkList rest parentNumber (idx + 1) indent) with
          | (reg2, _, ls2) => (reg2, 0, ls1 ++ ls2)
    | .linkSubtree link number indent =>
      match exportGo n m reg
          (.sources link.polarity number indent link.source_ids.length 0 link.source_ids) with
      | (reg1, _, srcLines) =>
        if link.id = "" then (reg1, 0, srcLines)
        else
          match exportGo n m reg1 (.warrantLinks (warrantsOf m link.id) number indent 1) with
          | (reg2, _, wLines) => (reg2, 0, srcLines ++ wLines)
    | .sources pol number indent srcCount k sids =>
      match sids with
      | [] => (reg, 0, [])
      | sid :: rest =>
        let sourceNumber := if 1 < srcCount then number ++ "." ++ toString (k + 1) else number
        match dget? sid reg with
        | some existing =>
          let line := indentStr indent ++ sourceNumber ++ " [" ++ pol ++ "] (see " ++
            existing ++ ")"
          match exportGo n m reg (.sources pol number indent srcCount (k + 1) rest) with
          | (reg2, _, ls) => (reg2, 0, line :: ls)
        | none =>
          match dget? sid m.nodes with
          | none => exportGo n m reg (.sources pol number indent srcCount (k + 1) rest)
          | some node =>
            let line := fmtNodeLine node sid pol sourceNumber indent
            let reg1 := dinsert sid sourceNumber reg
            match exportGo n m reg1 (.children sid sourceNumber (indent + 1)) with
            | (reg2, _, childLines) =>
              match exportGo n m reg2 (.sources pol number indent srcCount (k + 1) rest) with
              | (reg3, _, ls) => (reg3, 0, line :: (childLines ++ ls))
    | .children nodeId parentNumber indent =>
      exportGo n m reg (.linkList (sortedIncoming m nodeId) parentNumber 1 indent)
    | .warrantLinks wlinks parentNumber indent idx =>
      match wlinks with
      | [] => (reg, 0, [])
      | wl :: rest =>
        match exportGo n m reg (.warrantSources wl.source_ids parentNumber indent idx) with
        | (reg1, idx1, ls1) =>
          match exportGo n m reg1 (.warrantLinks rest parentNumber indent idx1) with
          | (reg2, _, ls2) => (reg2, 0, ls1 ++ ls2)
    | .warrantSources sids parentNumber indent idx =>
      match sids with
      | [] => (reg, idx, [])
      | sid :: rest =>
        let wNum := parentNumber ++ "w" ++ toString idx
        match dget? sid reg with
        | some existing =>
          let line := indentStr indent ++ wNum ++ " [warrant] (see " ++ existing ++ ")"
          match exportGo n m reg (.warrantSources rest parentNumber indent (idx + 1)) with
          | (reg2, idx2, ls) => (reg2, idx2, line :: ls)
        | none =>
          match dget? sid m.nodes with
          | none => exportGo n m reg (.warrantSources rest parentNumber indent idx)
          | some node =>
            let line := indentStr indent ++ wNum ++ " [warrant] [" ++ node.nodeType ++ "] " ++
              contentOf node sid
            let reg1 := dinsert sid wNum reg
            match exportGo n m reg1 (.children sid wNum (indent + 1)) with
            | (reg2, _, childLines) =>
              match exportGo n m reg2 (.warrantSources rest parentNumber indent (idx + 1)) with
              | (reg3, idx3, ls) => (reg3, idx3, line :: (childLines ++ ls))

/-- Loop body of _format_conclusion_tree and _get_children_lines. -/
def fmtLinkList (fuel : Nat) (m : GraphModel) (reg : Reg) (links : List LinkRec)
    (parentNumber : String) (idx indent : Nat) : Reg × List String :=
  match exportGo fuel m reg (.linkList links parentNumber idx indent) with
  | (reg2, _, ls) => (reg2, ls)

/-- Sort key of the conclusion ordering: dict.get of content with the node
id as default.  Note that the Python sort key is this key alone; there is
no identifier tie-break. -/
def concKey (p : String × NodeRec) : String := p.2.content.getD p.1

/-- Conclusion nodes in registry (insertion) order. -/
def conclusionsOf (m : GraphModel) : List (String × NodeRec) :=
  m.nodes.filter (fun p => p.2.nodeType = "Conclusion")

/-- The conclusions in the order the exporter numbers them: a stable sort
by concKey over registry order. -/
def sortedConclusions (m : GraphModel) : List (String × NodeRec) :=
  sortStableBy (fun p q => strLeB (concKey p) (concKey q)) (conclusionsOf m)

/-- Conclusion loop of export: each conclusion block is the header line
followed by its link tree, the block lines joined by blank lines, with the
first-occurrence registry threaded through all blocks. -/
def fmtConclusionList (fuel : Nat) (m : GraphModel) :
    Reg → Nat → List (String × NodeRec) → (Reg × List String)
  | reg, _, [] => (reg, [])
  | reg, i, (cid, node) :: rest =>
    let number := toString i
    let headerLine := number ++ ". [Conclusion] " ++ contentOf node cid
    let reg1 := dinsert cid number reg
    match fmtLinkList fuel m reg1 (sortedIncoming m cid) number 1 1 with
    | (reg2, ls) =>
      let sectionStr := joinSep "\n\n" (headerLine :: ls)
      match fmtConclusionList fuel m reg2 (i + 1) rest with
      | (reg3, sections) => (reg3, sectionStr :: sections)

/-- Fuel that strictly dominates the exporter call depth: the registry
guard bounds the depth by the graph size, and each list step consumes one
unit, so a quadratic bound is ample. -/
def exportFuel (m : GraphModel) : Nat :=
  let s := m.nodes.length + m.links.length +
    (m.links.map (fun p => p.2.source_ids.length)).sum + 5
  s * s

/-- OutlineExporter.export: sort the conclusions, format each block, join
the blocks with blank lines. -/
def exportOutline (m : GraphModel) : String :=
  joinSep "\n\n" (fmtConclusionList (exportFuel m) m [] 1 (sortedConclusions m)).2

/-! ## Declarative descriptions used by the theorems

These definitions restate, in direct declarative form, what the passes are
claimed to compute; the theorems below relate them to the imperative
embeddings above. -/

/-- The observable core of a link: sources, target and polarity, without
the generated id. -/
def linkCore (l : LinkRec) : List String × Option String × String :=
  (l.source_ids, l.target_id, l.polarity)

/-- The outline-number registry produced by the two node passes. -/
def numberMapOf (lines : List ParsedLine) : NMap := (buildNodes lines).1

/-- The node records produced by the two node passes. -/
def nodesOf (lines : List ParsedLine) : List NodeRec := (buildNodes lines).2

/-- A line that the determination pass turns into an immediate
single-source link: not a conclusion, not a warrant, with a parent number
registered as a node; gives (source id, target id, polarity). -/
def qualifiesSingle (nm : NMap) (p : ParsedLine) : Option (String × String × String) :=
  if p.nodeType = "Conclusion" then none
  else if p.isWarrant then none
  else
    match getParentNumber p.number with
    | none => none
    | some parent =>
      match resolveOpt nm p with
      | none => none
      | some src =>
        match dget? parent nm with
        | some target => some (src, target, p.polarity.getD "supports")
        | none => none

/-- The co-premise group key a line joins: not a conclusion, not a
warrant, source resolvable, parent number unregistered, grandparent
present and registered; the key is (parent number, polarity). -/
def memberKey (nm : NMap) (p : ParsedLine) : Option (String × String) :=
  if p.nodeType = "Conclusion" then none
  else if p.isWarrant then none
  else
    match getParentNumber p.number with
    | none => none
    | some parent =>
      match resolveOpt nm p with
      | none => none
      | some _ =>
        match dget? parent nm with
        | some _ => none
        | none =>
          match getParentNumber parent with
          | none => none
          | some gp =>
            if dmem gp nm then some (parent, p.polarity.getD "supports") else none

/-- The core of the one link a co-premise group yields: all member sources
resolved silently in member order, targeting the registered grandparent
node, with the group polarity; none when the grandparent is missing or no
source resolves. -/
def mkGroupCore (nm : NMap) (g : (String × String) × List ParsedLine) :
    Option (List String × Option String × String) :=
  match getParentNumber g.1.1 with
  | none => none
  | some gp =>
    match dget? gp nm with
    | none => none
    | some target =>
      let sources := g.2.filterMap (resolveOpt nm)
      if sources.isEmpty then none else some (sources, some target, g.1.2)

/-- Members recorded under a group key, empty when the key is absent. -/
def groupMembers (key : String × String) : Groups → List ParsedLine
  | [] => []
  | g :: gs => if g.1 = key then g.2 else groupMembers key gs

/-- The number-to-id assignments one node pass performs, in order; later
assignments to the same number overwrite earlier ones in the registry. -/
def nodeAssigns (want : Bool) (k : Nat) : List ParsedLine → List (String × String)
  | [] => []
  | p :: ps =>
    if p.backref.isSome || (p.isWarrant != want) then nodeAssigns want k ps
    else (p.number, freshNodeId k) :: nodeAssigns want (k + 1) ps

/-- Number of lines eligible for a node pass. -/
def eligibleCount (want : Bool) (lines : List ParsedLine) : Nat :=
  (lines.filter (fun p => !(p.backref.isSome || (p.isWarrant != want)))).length

/-- All number-to-id assignments of both node passes, in execution
order. -/
def assignSeq (lines : List ParsedLine) : List (String × String) :=
  nodeAssigns false 0 lines ++ nodeAssigns true (eligibleCount false lines) lines

/-- The value of the last entry with the given key in an assignment
sequence. -/
def lastValue (k : String) : List (String × String) → Option String
  | [] => none
  | kv :: rest =>
    match lastValue k rest with
    | some v => some v
    | none => if kv.1 = k then some kv.2 else none

/-- The id assigned last to an outline number across the whole document,
none when the number was never assigned. -/
def lastAssignedId (lines : List ParsedLine) (n : String) : Option String :=
  lastValue n (assignSeq lines)

/-- A raw line on which _parse_line raises: a grammar mismatch or an
indentation that is not a multiple of three. -/
def lineFails (cs : List Char) : Bool :=
  match matchLineCore cs with
  | none => true
  | some (indentLen, _, _, _, _) => decide (indentLen % 3 ≠ 0)

/-- A blank line, skipped by parse before line parsing. -/
def blankLine (cs : List Char) : Bool := cs.all isPySpace

/-- The condition under which linkStep raises: an unresolved
back-reference on a linking line. -/
def stepFails (nm : NMap) (p : ParsedLine) : Bool :=
  !(p.nodeType == "Conclusion") && !p.isWarrant &&
  (getParentNumber p.number).isSome &&
  (match p.backref with
   | some b => (dget? b nm).isNone
   | none => false)

/-- A parse result that is not a referential error: parse either
succeeds or raises an OutlineParseError. -/
def nonReferentialResult : Except ModelError GraphModel → Bool
  | .ok _ => true
  | .error (.lineError _ _) => true
  | .error _ => false

/-- An id that occurs as a value of the outline-number registry. -/
def nmHasVal (nm : NMap) (v : String) : Prop := ∃ numb, dget? numb nm = some v

/-- References of a link resolve inside the parse: every source is a
registry value, and the target is a registry value or the id of an
already-created link. -/
def linkRefsOK (nm : NMap) (links : List LinkRec) (l : LinkRec) : Prop :=
  (∀ s ∈ l.source_ids, nmHasVal nm s) ∧
  (∃ t, l.target_id = some t ∧
    (nmHasVal nm t ∨ links.any (fun l2 => l2.id = t) = true))

/-- Invariant of the link passes: every created link resolves, and every
number-to-link-id entry points at a created link. -/
def stateOK (nm : NMap) (st : LinkState) : Prop :=
  (∀ l ∈ st.links, linkRefsOK nm st.links l) ∧
  (∀ numb lid, dget? numb st.nlid = some lid →
    st.links.any (fun l2 => l2.id = lid) = true)

/-- A GraphModel whose registries are consistent: every entry is keyed by
the id of its record and keys are duplicate free (every model built by the
constructor from duplicate-free inputs satisfies this). -/
def GraphModel.wellFormedB (m : GraphModel) : Bool :=
  m.nodes.all (fun p => p.2.id = p.1) && decide (m.nodes.map (·.1)).Nodup &&
  m.links.all (fun p => p.2.id = p.1) && decide (m.links.map (·.1)).Nodup

/-! ## Concrete inputs used by the counterexamples and witnesses -/

/-- Node records of the round-trip example graph: a conclusion supported
jointly by two propositions, with a warrant on the joint link.  Contents
are pairwise distinct and the union graph is acyclic. -/
def rtNodes : List NodeRec := [
  { id := "X", nodeType := "Conclusion", content := some "X" },
  { id := "A", nodeType := "Proposition", content := some "A" },
  { id := "B", nodeType := "Proposition", content := some "B" },
  { id := "W", nodeType := "Proposition", content := some "W" } ]

/-- Link records of the round-trip example graph: one two-source link into
the conclusion, and one warrant link targeting that link. -/
def rtLinks : List LinkRec := [
  { id := "L1", source_ids := ["A", "B"], target_id := some "X", polarity := "supports" },
  { id := "L2", source_ids := ["W"], target_id := some "L1", polarity := "supports" } ]

/-- The constructed round-trip example graph. -/
def rtModel : GraphModel :=
  match buildGraphModel rtNodes rtLinks with
  | .ok m => m
  | .error _ => { nodes := [], links := [], edges := [] }

/-- Check that a vertex order is a topological order of an edge list; the
existence of one certifies acyclicity of the union graph. -/
def respectsOrder (edges : List (String × String)) (order : List String) : Bool :=
  edges.all (fun e =>
    match order.indexOf? e.1, order.indexOf? e.2 with
    | some i, some j => decide (i < j)
    | _, _ => false)

/-- Outline text with a co-premise group and a warrant on the group link,
exactly the text the exporter produces for rtModel. -/
def warrantOutlineText : String :=
  "1. [Conclusion] X\n\n   1.1.1 [supports] [Proposition] A\n\n   " ++
  "1.1.2 [supports] [Proposition] B\n\n   1.1w1 [warrant] [Proposition] W"

/-- The scanned lines of warrantOutlineText. -/
def warrantLines : List ParsedLine :=
  match scanLines 1 (splitOnChar '\n' warrantOutlineText.data) with
  | .ok ls => ls
  | .error _ => []

/-- The number registry of warrantOutlineText. -/
def warrantNm : NMap := numberMapOf warrantLines

/-- The state after the link-determination pass on warrantOutlineText. -/
def warrantSt1 : LinkState :=
  match linkPass warrantNm LinkState.init warrantLines with
  | .ok st => st
  | .error _ => LinkState.init

/-- The state after the co-premise pass on warrantOutlineText. -/
def warrantSt2 : LinkState := groupPass warrantNm warrantSt1 warrantSt1.groups

/-- The state after the warrant pass on warrantOutlineText. -/
def warrantSt3 : LinkState := warrantPass warrantNm warrantSt2 warrantLines

/-- A single orphan co-premise line: its parent number 1 is unregistered
and has no grandparent. -/
def orphanText : String := "1.1 [supports] [Proposition] P"

/-- The scanned lines of orphanText. -/
def orphanLines : List ParsedLine :=
  match scanLines 1 (splitOnChar '\n' orphanText.data) with
  | .ok ls => ls
  | .error _ => []

/-- A document whose number 1.1 is assigned twice and then referenced. -/
def dupText : String :=
  "1. [Conclusion] A\n   1.1 [supports] [Proposition] P\n   " ++
  "1.1 [supports] [Proposition] Q\n   1.2 [supports] (see 1.1)"

/-- The scanned lines of dupText. -/
def dupLines : List ParsedLine :=
  match scanLines 1 (splitOnChar '\n' dupText.data) with
  | .ok ls => ls
  | .error _ => []

/-- A document exercising a single-source link, two co-premise groups
distinguished by polarity, and a resolvable back-reference. -/
def mixedText : String :=
  "1. [Conclusion] C\n   1.1 [supports] [Proposition] S\n   " ++
  "1.2.1 [supports] [Datum] D1\n   1.2.2 [undermines] [Datum] D2\n   " ++
  "1.3 [supports] (see 1.1)"

/-- The scanned lines of mixedText. -/
def mixedLines : List ParsedLine :=
  match scanLines 1 (splitOnChar '\n' mixedText.data) with
  | .ok ls => ls
  | .error _ => []

/-- The state after the link-determination pass on mixedText. -/
def mixedSt : LinkState :=
  match linkPass (numberMapOf mixedLines) LinkState.init mixedLines with
  | .ok st => st
  | .error _ => LinkState.init

/-- A node list whose single link carries an empty target id. -/
def emptyTargetNodes : List NodeRec :=
  [{ id := "a", nodeType := "Proposition", content := some "c" }]

/-- The link with the empty target id. -/
def emptyTargetLinks : List LinkRec :=
  [{ id := "L", source_ids := ["a"], target_id := some "", polarity := "supports" }]

/-- Two conclusions with the same content, the one with the larger
identifier registered first and carrying one supporter. -/
def tieNodesA : List NodeRec := [
  { id := "z", nodeType := "Conclusion", content := some "C" },
  { id := "a", nodeType := "Conclusion", content := some "C" },
  { id := "p", nodeType := "Proposition", content := some "P" } ]

/-- The same records with the two conclusions registered in the other
order. -/
def tieNodesB : List NodeRec := [
  { id := "a", nodeType := "Conclusion", content := some "C" },
  { id := "z", nodeType := "Conclusion", content := some "C" },
  { id := "p", nodeType := "Proposition", content := some "P" } ]

/-- The supporter link of the tie-break example. -/
def tieLinks : List LinkRec :=
  [{ id := "Lp", source_ids := ["p"], target_id := some "z", polarity := "supports" }]

/-- The tie-break model with z registered before a. -/
def tieModelA : GraphModel :=
  match buildGraphModel tieNodesA tieLinks with
  | .ok m => m
  | .error _ => { nodes := [], links := [], edges := [] }

/-- The tie-break model with a registered before z. -/
def tieModelB : GraphModel :=
  match buildGraphModel tieNodesB tieLinks with
  | .ok m => m
  | .error _ => { nodes := [], links := [], edges := [] }

/-- A two-node one-link graph for the subgraph counterexample. -/
def subNodes : List NodeRec := [
  { id := "a", nodeType := "Proposition", content := some "a" },
  { id := "b", nodeType := "Proposition", content := some "b" } ]

/-- The link of the subgraph counterexample. -/
def subLinks : List LinkRec :=
  [{ id := "L", source_ids := ["a"], target_id := some "b", polarity := "supports" }]

/-- The subgraph counterexample model. -/
def subModel : GraphModel :=
  match buildGraphModel subNodes subLinks with
  | .ok m => m
  | .error _ => { nodes := [], links := [], edges := [] }

/-- A node and a link sharing the identifier x. -/
def sharedIdNodes : List NodeRec :=
  [{ id := "x", nodeType := "Proposition", content := some "c" }]

/-- The link whose id collides with the node id x. -/
def sharedIdLinks : List LinkRec :=
  [{ id := "x", source_ids := ["x"], target_id := some "x", polarity := "supports" }]

/-- A document whose second line is indented by four spaces. -/
def badIndentText : String := "1. [Conclusion] A\n    1.1 [supports] [Proposition] B"

/-- A parsed line carrying an unresolvable back-reference, as produced by
the line parser for the text 1.1 [supports] (see 9) at physical line 2. -/
def unresolvedBackrefLine : ParsedLine :=
  { lineNumber := 2, indentLevel := 1, number := "1.1", polarity := some "supports",
    nodeType := "Proposition", content := none, backref := some "9", isWarrant := false }

/-- A parsed warrant line carrying an unresolvable back-reference, as
produced by the line parser for 1.1w1 [warrant] (see 9). -/
def skippedWarrantLine : ParsedLine :=
  { lineNumber := 1, indentLevel := 0, number := "1.1w1", polarity := some "warrant",
    nodeType := "Proposition", content := none, backref := some "9", isWarrant := true }

/-- An empty node list for the dangling-reference witness. -/
def danglingNodes : List NodeRec := []

/-- A link whose single source id ghost is registered nowhere. -/
def danglingLinks : List LinkRec :=
  [{ id := "L", source_ids := ["ghost"], target_id := none, polarity := "supports" }]

/-! ## Dictionary lemmas -/

theorem dget?_dinsert_self (k : String) (v : α) (d : List (String × α)) :
    dget? k (dinsert k v d) = some v := by
  induction d with
  | nil => simp [dinsert, dget?]
  | cons p rest ih =>
    by_cases h : p.1 = k
    · simp [dinsert, dget?, h]
    · simp [dinsert, dget?, h, ih]

theorem dget?_dinsert_ne (k k2 : String) (v : α) (d : List (String × α))
    (h : k ≠ k2) : dget? k2 (dinsert k v d) = dget? k2 d := by
  induction d with
  | nil => simp [dinsert, dget?, h]
  | cons p rest ih =>
    by_cases hp : p.1 = k
    · simp [dinsert, dget?, hp, h, Ne.symm h]
    · by_cases hp2 : p.1 = k2
      · simp [dinsert, dget?, hp, hp2, Ne.symm h]
      · simp [dinsert, dget?, hp, hp2, ih]

theorem dmem_dinsert (k k2 : String) (v : α) (d : List (String × α)) :
    dmem k2 (dinsert k v d) = (decide (k = k2) || dmem k2 d) := by
  by_cases h : k = k2
  · subst h
    simp [dmem, dget?_dinsert_self]
  · simp [dmem, dget?_dinsert_ne k k2 v d h, h]

theorem mem_dinsert (k : String) (v : α) (d : List (String × α)) (p : String × α)
    (h : p ∈ dinsert k v d) : p = (k, v) ∨ p ∈ d := by
  induction d with
  | nil => simpa [dinsert] using h
  | cons q rest ih =>
    by_cases hq : q.1 = k
    · simp only [dinsert, if_pos hq] at h
      rcases List.mem_cons.mp h with h2 | h2
      · exact Or.inl h2
      · exact Or.inr (List.mem_cons_of_mem q h2)
    · simp only [dinsert, if_neg hq] at h
      rcases List.mem_cons.mp h with h2 | h2
      · exact Or.inr (h2 ▸ List.mem_cons_self q rest)
      · rcases ih h2 with h3 | h3
        · exact Or.inl h3
        · exact Or.inr (List.mem_cons_of_mem q h3)

theorem dmem_foldl_dinsert (f : α → String) (g : α → β) :
    ∀ (l : List α) (d0 : List (String × β)) (k : String),
      dmem k (l.foldl (fun d x => dinsert (f x) (g x) d) d0) =
        (l.any (fun x => f x = k) || dmem k d0) := by
  intro l
  induction l with
  | nil => intro d0 k; simp
  | cons x rest ih =>
    intro d0 k
    simp only [List.foldl_cons, List.any_cons]
    rw [ih, dmem_dinsert]
    by_cases h : f x = k <;> simp [h, Bool.or_comm, Bool.or_assoc, Bool.or_left_comm]

theorem mem_foldl_dinsert (f : α → String) (g : α → β) :
    ∀ (l : List α) (d0 : List (String × β)) (p : String × β),
      p ∈ l.foldl (fun d x => dinsert (f x) (g x) d) d0 →
        p ∈ d0 ∨ ∃ x ∈ l, p = (f x, g x) := by
  intro l
  induction l with
  | nil => intro d0 p h; exact Or.inl h
  | cons x rest ih =>
    intro d0 p h
    simp only [List.foldl_cons] at h
    rcases ih _ p h with h2 | ⟨y, hy, hp⟩
    · rcases mem_dinsert _ _ _ _ h2 with h3 | h3
      · exact Or.inr ⟨x, List.mem_cons_self x rest, h3⟩
      · exact Or.inl h3
    · exact Or.inr ⟨y, List.mem_cons_of_mem x hy, hp⟩

theorem dget?_foldl_lastValue :
    ∀ (l : List (String × String)) (d0 : List (String × String)) (k : String),
      dget? k (l.foldl (fun d kv => dinsert kv.1 kv.2 d) d0) =
        (match lastValue k l with
         | some v => some v
         | none => dget? k d0) := by
  intro l
  induction l with
  | nil => intro d0 k; simp [lastValue]
  | cons kv rest ih =>
    intro d0 k
    simp only [List.foldl_cons]
    rw [ih]
    rcases hlast : lastValue k rest with _ | v
    · simp only [lastValue, hlast]
      by_cases h : kv.1 = k
      · subst h
        simp [dget?_dinsert_self]
      · simp [h, dget?_dinsert_ne kv.1 k kv.2 d0 h]
    · simp [lastValue, hlast]

theorem dinsert_of_not_mem (k : String) (v : α) (d : List (String × α))
    (h : dmem k d = false) : dinsert k v d = d ++ [(k, v)] := by
  induction d with
  | nil => simp [dinsert]
  | cons p rest ih =>
    simp only [dmem, dget?] at h
    by_cases hp : p.1 = k
    · simp [hp] at h
    · simp only [dmem, dinsert, if_neg hp, List.cons_append]
      simp only [if_neg hp] at h
      rw [ih h]

/-! ## Node-pass lemmas -/

theorem nodesPass_nm (want : Bool) :
    ∀ (lines : List ParsedLine) (k : Nat) (nm : NMap),
      (nodesPass want k nm lines).2.1 =
        (nodeAssigns want k lines).foldl (fun d kv => dinsert kv.1 kv.2 d) nm := by
  intro lines
  induction lines with
  | nil => intro k nm; simp [nodesPass, nodeAssigns]
  | cons p ps ih =>
    intro k nm
    by_cases h : p.backref.isSome || (p.isWarrant != want)
    · simp [nodesPass, nodeAssigns, h, ih]
    · simp [nodesPass, nodeAssigns, h, ih]

theorem eligibleCount_cons_skip (want : Bool) (p : ParsedLine) (ps : List ParsedLine)
    (h : (p.backref.isSome || (p.isWarrant != want)) = true) :
    eligibleCount want (p :: ps) = eligibleCount want ps := by
  simp only [eligibleCount, List.filter_cons, h, Bool.not_true]
  simp

theorem eligibleCount_cons_keep (want : Bool) (p : ParsedLine) (ps : List ParsedLine)
    (h : (p.backref.isSome || (p.isWarrant != want)) = false) :
    eligibleCount want (p :: ps) = eligibleCount want ps + 1 := by
  simp only [eligibleCount, List.filter_cons, h, Bool.not_false]
  simp

theorem nodesPass_counter (want : Bool) :
    ∀ (lines : List ParsedLine) (k : Nat) (nm : NMap),
      (nodesPass want k nm lines).1 = k + eligibleCount want lines := by
  intro lines
  induction lines with
  | nil => intro k nm; simp [nodesPass, eligibleCount]
  | cons p ps ih =>
    intro k nm
    by_cases h : p.backref.isSome || (p.isWarrant != want)
    · rw [nodesPass, if_pos h, ih, eligibleCount_cons_skip want p ps h]
    · rcases hrec : nodesPass want (k + 1) (dinsert p.number (freshNodeId k) nm) ps with
        ⟨k2, nm2, ns⟩
      simp only [nodesPass, if_neg h, hrec]
      have hk2 : k2 = (k + 1) + eligibleCount want ps := by
        have := ih (k + 1) (dinsert p.number (freshNodeId k) nm)
        rw [hrec] at this
        exact this
      rw [eligibleCount_cons_keep want p ps (by simpa using h)]
      omega

theorem nodesPass_values (want : Bool) :
    ∀ (lines : List ParsedLine) (k : Nat) (nm : NMap) (numb v : String),
      dget? numb (nodesPass want k nm lines).2.1 = some v →
      dget? numb nm = some v ∨
        (nodesPass want k nm lines).2.2.any (fun n => n.id = v) = true := by
  intro lines
  induction lines with
  | nil => intro k nm numb v h; exact Or.inl h
  | cons p ps ih =>
    intro k nm numb v h
    by_cases hskip : p.backref.isSome || (p.isWarrant != want)
    · simp only [nodesPass, if_pos hskip] at h ⊢
      exact ih k nm numb v h
    · rcases hrec : nodesPass want (k + 1) (dinsert p.number (freshNodeId k) nm) ps with
        ⟨k2, nm2, ns⟩
      simp only [nodesPass, if_neg hskip, hrec] at h ⊢
      rcases ih (k + 1) (dinsert p.number (freshNodeId k) nm) numb v (by rw [hrec]; exact h)
        with h2 | h2
      · by_cases hn : p.number = numb
        · subst hn
          rw [dget?_dinsert_self] at h2
          refine Or.inr ?_
          simp only [List.any_cons, Bool.or_eq_true]
          left
          simp [Option.some.inj h2]
        · rw [dget?_dinsert_ne _ _ _ _ hn] at h2
          exact Or.inl h2
      · rw [hrec] at h2
        simp only at h2
        refine Or.inr ?_
        simp only [List.any_cons, Bool.or_eq_true]
        right
        exact h2

theorem buildNodes_nm (lines : List ParsedLine) :
    (buildNodes lines).1 =
      (assignSeq lines).foldl (fun d kv => dinsert kv.1 kv.2 d) [] := by
  rcases h1 : nodesPass false 0 [] lines with ⟨k1, nm1, ns1⟩
  rcases h2 : nodesPass true k1 nm1 lines with ⟨k2, nm2, ns2⟩
  have e1 : nm1 = (nodeAssigns false 0 lines).foldl (fun d kv => dinsert kv.1 kv.2 d) [] := by
    have := nodesPass_nm false lines 0 []
    rw [h1] at this
    exact this
  have ec : k1 = eligibleCount false lines := by
    have := nodesPass_counter false lines 0 []
    rw [h1] at this
    simpa using this
  have e2 : nm2 = (nodeAssigns true k1 lines).foldl (fun d kv => dinsert kv.1 kv.2 d) nm1 := by
    have := nodesPass_nm true lines k1 nm1
    rw [h2] at this
    exact this
  simp only [buildNodes, h1, h2, assignSeq, List.foldl_append]
  rw [e2, e1, ec]

theorem buildNodes_values (lines : List ParsedLine) (numb v : String)
    (h : dget? numb (buildNodes lines).1 = some v) :
    ((buildNodes lines).2).any (fun n => n.id = v) = true := by
  rcases h1 : nodesPass false 0 [] lines with ⟨k1, nm1, ns1⟩
  rcases h2 : nodesPass true k1 nm1 lines with ⟨k2, nm2, ns2⟩
  simp only [buildNodes, h1, h2] at h ⊢
  have hv2 := nodesPass_values true lines k1 nm1 numb v (by rw [h2]; exact h)
  rw [h2] at hv2
  simp only at hv2
  rcases hv2 with hv2 | hv2
  · have hv1 := nodesPass_values false lines 0 [] numb v (by rw [h1]; exact hv2)
    rw [h1] at hv1
    simp only at hv1
    rcases hv1 with hv1 | hv1
    · simp [dget?] at hv1
    · simp [List.any_append, hv1]
  · simp [List.any_append, hv2]

/-! ## Link-pass lemmas -/

theorem resolveSource_ok (nm : NMap) (p : ParsedLine) (r : Option String)
    (h : resolveSource nm p = .ok r) : resolveOpt nm p = r := by
  rcases hb : p.backref with _ | b
  · simp only [resolveSource, hb] at h
    simp only [resolveOpt, hb]
    exact Except.ok.inj h
  · simp only [resolveSource, hb] at h
    rcases hg : dget? b nm with _ | v
    · rw [hg] at h
      cases h
    · rw [hg] at h
      simp only [resolveOpt, hb, hg]
      exact Except.ok.inj h

theorem resolveSource_of_resolveOpt (nm : NMap) (p : ParsedLine) (v : String)
    (h : resolveOpt nm p = some v) : resolveSource nm p = .ok (some v) := by
  rcases hb : p.backref with _ | b
  · simp only [resolveOpt, hb] at h
    simp [resolveSource, hb, h]
  · simp only [resolveOpt, hb] at h
    simp [resolveSource, hb, h]

theorem linkStep_ok_links (nm : NMap) (st : LinkState) (p : ParsedLine) (st2 : LinkState)
    (h : linkStep nm st p = .ok st2) :
    st2.links.map linkCore = st.links.map linkCore ++
      (match qualifiesSingle nm p with
       | some x => [([x.1], some x.2.1, x.2.2)]
       | none => []) := by
  by_cases hc : p.nodeType = "Conclusion"
  · simp only [linkStep, if_pos hc] at h
    simp [qualifiesSingle, hc, ← Except.ok.inj h]
  · by_cases hw : p.isWarrant
    · simp only [linkStep, if_neg hc, hw, if_pos rfl] at h
      simp [qualifiesSingle, hc, hw, ← Except.ok.inj h]
    · simp only [linkStep, if_neg hc, Bool.not_eq_true] at h
      rw [eq_false_of_ne_true hw] at h
      simp only [if_neg (by simp : ¬ (false = true))] at h
      rcases hp : getParentNumber p.number with _ | parent
      · rw [hp] at h
        simp [qualifiesSingle, hc, hw, hp, ← Except.ok.inj h]
      · rw [hp] at h
        rcases hr : resolveSource nm p with e | r
        · rw [hr] at h
          cases h
        · rw [hr] at h
          have hro := resolveSource_ok nm p r hr
          rcases r with _ | src
          · simp only at h
            simp [qualifiesSingle, hc, hw, hp, hro, ← Except.ok.inj h]
          · simp only at h
            rcases hg : dget? parent nm with _ | target
            · rw [hg] at h
              rcases hgp : getParentNumber parent with _ | gp
              · rw [hgp] at h
                simp [qualifiesSingle, hc, hw, hp, hro, hg, hgp, ← Except.ok.inj h]
              · rw [hgp] at h
                by_cases hgm : dmem gp nm
                · simp only [if_pos hgm] at h
                  simp [qualifiesSingle, hc, hw, hp, hro, hg, hgp, hgm, ← Except.ok.inj h]
                · simp only [if_neg hgm] at h
                  simp [qualifiesSingle, hc, hw, hp, hro, hg, hgp, hgm, ← Except.ok.inj h]
            · rw [hg] at h
              simp only [← Except.ok.inj h]
              simp [qualifiesSingle, hc, hw, hp, hro, hg, linkCore]

theorem linkStep_ok_groups (nm : NMap) (st : LinkState) (p : ParsedLine) (st2 : LinkState)
    (h : linkStep nm st p = .ok st2) :
    st2.groups = (match memberKey nm p with
                  | some key => gappend key p st.groups
                  | none => st.groups) := by
  by_cases hc : p.nodeType = "Conclusion"
  · simp only [linkStep, if_pos hc] at h
    simp [memberKey, hc, ← Except.ok.inj h]
  · by_cases hw : p.isWarrant
    · simp only [linkStep, if_neg hc, hw, if_pos rfl] at h
      simp [memberKey, hc, hw, ← Except.ok.inj h]
    · simp only [linkStep, if_neg hc, Bool.not_eq_true] at h
      rw [eq_false_of_ne_true hw] at h
      simp only [if_neg (by simp : ¬ (false = true))] at h
      rcases hp : getParentNumber p.number with _ | parent
      · rw [hp] at h
        simp [memberKey, hc, hw, hp, ← Except.ok.inj h]
      · rw [hp] at h
        rcases hr : resolveSource nm p with e | r
        · rw [hr] at h
          cases h
        · rw [hr] at h
          have hro := resolveSource_ok nm p r hr
          rcases r with _ | src
          · simp only at h
            simp [memberKey, hc, hw, hp, hro, ← Except.ok.inj h]
          · simp only at h
            rcases hg : dget? parent nm with _ | target
            · rw [hg] at h
              rcases hgp : getParentNumber parent with _ | gp
              · rw [hgp] at h
                simp [memberKey, hc, hw, hp, hro, hg, hgp, ← Except.ok.inj h]
              · rw [hgp] at h
                by_cases hgm : dmem gp nm
                · simp only [if_pos hgm] at h
                  simp [memberKey, hc, hw, hp, hro, hg, hgp, hgm, ← Except.ok.inj h]
                · simp only [if_neg hgm] at h
                  simp [memberKey, hc, hw, hp, hro, hg, hgp, hgm, ← Except.ok.inj h]
            · rw [hg] at h
              simp [memberKey, hc, hw, hp, hro, hg, ← Except.ok.inj h]

theorem groupMembers_gappend (key key2 : String × String) (p : ParsedLine) (gs : Groups) :
    groupMembers key (gappend key2 p gs) =
      (if key2 = key then groupMembers key gs ++ [p] else groupMembers key gs) := by
  induction gs with
  | nil =>
    by_cases hk : key2 = key
    · simp [gappend, groupMembers, hk]
    · simp [gappend, groupMembers, hk]
  | cons g rest ih =>
    by_cases hg : g.1 = key2
    · by_cases hk : key2 = key
      · have hgk : g.1 = key := hg.trans hk
        simp [gappend, groupMembers, hg, hk, hgk]
      · have hgk : ¬ (g.1 = key) := by rw [hg]; exact hk
        simp [gappend, groupMembers, hg, hk, hgk]
    · by_cases hgk : g.1 = key
      · have hk : ¬ (key2 = key) := by intro hh; exact hg (hgk.trans hh.symm)
        simp only [gappend, if_neg hg]
        simp [groupMembers, hgk, hk]
      · simp only [gappend, if_neg hg]
        simp [groupMembers, hgk, ih]

theorem linkPass_links (nm : NMap) :
    ∀ (lines : List ParsedLine) (st st2 : LinkState),
      linkPass nm st lines = .ok st2 →
      st2.links.map linkCore = st.links.map linkCore ++
        lines.filterMap
          (fun p => (qualifiesSingle nm p).map (fun x => ([x.1], some x.2.1, x.2.2))) := by
  intro lines
  induction lines with
  | nil =>
    intro st st2 h
    simp only [linkPass] at h
    simp [← Except.ok.inj h]
  | cons p ps ih =>
    intro st st2 h
    simp only [linkPass] at h
    rcases hs : linkStep nm st p with e | stm
    · rw [hs] at h
      cases h
    · rw [hs] at h
      simp only at h
      have h1 := linkStep_ok_links nm st p stm hs
      have h2 := ih stm st2 h
      rw [h2, h1, List.append_assoc]
      congr 1
      rcases hq : qualifiesSingle nm p with _ | x
      · simp [List.filterMap_cons, hq]
      · simp [List.filterMap_cons, hq]

theorem linkPass_groups (nm : NMap) :
    ∀ (lines : List ParsedLine) (st st2 : LinkState),
      linkPass nm st lines = .ok st2 →
      ∀ key, groupMembers key st2.groups =
        groupMembers key st.groups ++ lines.filter (fun p => memberKey nm p = some key) := by
  intro lines
  induction lines with
  | nil =>
    intro st st2 h key
    simp only [linkPass] at h
    simp [← Except.ok.inj h]
  | cons p ps ih =>
    intro st st2 h key
    simp only [linkPass] at h
    rcases hs : linkStep nm st p with e | stm
    · rw [hs] at h
      cases h
    · rw [hs] at h
      simp only at h
      have h1 := linkStep_ok_groups nm st p stm hs
      have h2 := ih stm st2 h key
      rw [h2, h1]
      rcases hq : memberKey nm p with _ | k2
      · simp [List.filter_cons, hq]
      · rw [groupMembers_gappend]
        by_cases hk : k2 = key
        · subst hk
          simp [List.filter_cons, hq, List.append_assoc]
        · simp [List.filter_cons, hq, hk, fun h2 => hk (Option.some.inj h2)]

theorem memberKey_parent (nm : NMap) (p : ParsedLine) (key : String × String)
    (h : memberKey nm p = some key) :
    getParentNumber p.number = some key.1 ∧ p.polarity.getD "supports" = key.2 := by
  unfold memberKey at h
  by_cases hc : p.nodeType = "Conclusion"
  · rw [if_pos hc] at h
    cases h
  rw [if_neg hc] at h
  by_cases hw : p.isWarrant
  · rw [if_pos hw] at h
    cases h
  rw [if_neg hw] at h
  rcases hp : getParentNumber p.number with _ | parent
  · rw [hp] at h
    cases h
  rw [hp] at h
  simp only at h
  rcases hr : resolveOpt nm p with _ | src
  · rw [hr] at h
    cases h
  rw [hr] at h
  simp only at h
  rcases hg : dget? parent nm with _ | target
  · rw [hg] at h
    simp only at h
    rcases hgp : getParentNumber parent with _ | gp
    · rw [hgp] at h
      cases h
    rw [hgp] at h
    simp only at h
    by_cases hgm : dmem gp nm
    · rw [if_pos hgm] at h
      have hkey := Option.some.inj h
      subst hkey
      exact ⟨rfl, rfl⟩
    · rw [if_neg hgm] at h
      cases h
  · rw [hg] at h
    cases h

theorem groupStep_links (nm : NMap) (st : LinkState)
    (g : (String × String) × List ParsedLine) :
    (groupStep nm st g).links.map linkCore = st.links.map linkCore ++
      (match mkGroupCore nm g with
       | some c => [c]
       | none => []) := by
  rcases hgp : getParentNumber g.1.1 with _ | gp
  · simp [groupStep, mkGroupCore, hgp]
  · rcases hg : dget? gp nm with _ | target
    · simp [groupStep, mkGroupCore, hgp, hg]
    · by_cases he : (g.2.filterMap (resolveOpt nm)).isEmpty
      · simp [groupStep, mkGroupCore, hgp, hg, he]
      · simp [groupStep, mkGroupCore, hgp, hg, he, linkCore]

theorem groupPass_links (nm : NMap) :
    ∀ (gs : Groups) (st : LinkState),
      (groupPass nm st gs).links.map linkCore =
        st.links.map linkCore ++ gs.filterMap (mkGroupCore nm) := by
  intro gs
  induction gs with
  | nil => intro st; simp [groupPass]
  | cons g rest ih =>
    intro st
    simp only [groupPass]
    rw [ih, groupStep_links, List.append_assoc]
    congr 1
    rcases hq : mkGroupCore nm g with _ | c
    · simp [List.filterMap_cons, hq]
    · simp [List.filterMap_cons, hq]

/-! ## Error-shape lemmas -/

theorem parseLineE_error_forms (cs : List Char) (n : Nat) (e : ModelError)
    (h : parseLineE cs n = .error e) :
    e = .lineError n (malformedMessage cs) ∨
      ∃ il, e = .lineError n (indentMessage il) ∧ il % 3 ≠ 0 := by
  unfold parseLineE at h
  rcases hm : matchLineCore cs with _ | tup
  · rw [hm] at h
    simp only at h
    exact Or.inl (Except.error.inj h).symm
  · rw [hm] at h
    rcases tup with ⟨il, number, b1, b2, cc⟩
    simp only at h
    by_cases hil : il % 3 ≠ 0
    · rw [if_pos hil] at h
      exact Or.inr ⟨il, (Except.error.inj h).symm, hil⟩
    · rw [if_neg hil] at h
      by_cases hb1 : b1 = "Conclusion"
      · rw [if_pos hb1] at h
        cases h
      · rw [if_neg hb1] at h
        rcases hbr : matchBackref cc with _ | b
        · rw [hbr] at h
          cases h
        · rw [hbr] at h
          cases h

theorem scanLines_error_shape :
    ∀ (ls : List (List Char)) (i : Nat) (e : ModelError),
      scanLines i ls = .error e → ∃ nn msg, e = .lineError nn msg := by
  intro ls
  induction ls with
  | nil => intro i e h; cases h
  | cons l rest ih =>
    intro i e h
    by_cases hb : l.all isPySpace
    · rw [scanLines, if_pos hb] at h
      exact ih (i + 1) e h
    · rw [scanLines, if_neg hb] at h
      rcases hp : parseLineE l i with ep | p
      · rw [hp] at h
        simp only at h
        rcases parseLineE_error_forms l i ep hp with hf | ⟨il, hf, _⟩
        · exact ⟨i, malformedMessage l, by rw [← Except.error.inj h, hf]⟩
        · exact ⟨i, indentMessage il, by rw [← Except.error.inj h, hf]⟩
      · rw [hp] at h
        simp only at h
        rcases hr : scanLines (i + 1) rest with er | ps
        · rw [hr] at h
          simp only at h
          have he := Except.error.inj h
          subst he
          exact ih (i + 1) er hr
        · rw [hr] at h
          cases h

theorem linkStep_error_of (nm : NMap) (st : LinkState) (p : ParsedLine) (b : String)
    (hc : p.nodeType ≠ "Conclusion") (hw : p.isWarrant = false)
    (hp : (getParentNumber p.number).isSome) (hb : p.backref = some b)
    (hnone : dget? b nm = none) :
    linkStep nm st p = .error (.lineError p.lineNumber (backrefMessage b)) := by
  rcases hpn : getParentNumber p.number with _ | parent
  · rw [hpn] at hp
    cases hp
  · simp only [linkStep, if_neg hc, hw, Bool.false_eq_true, if_neg (by simp : ¬ False), hpn]
    have : resolveSource nm p = .error (.lineError p.lineNumber (backrefMessage b)) := by
      simp [resolveSource, hb, hnone]
    rw [this]

theorem linkStep_ok_of (nm : NMap) (st : LinkState) (p : ParsedLine)
    (h : stepFails nm p = false) : ∃ st2, linkStep nm st p = .ok st2 := by
  by_cases hc : p.nodeType = "Conclusion"
  · exact ⟨st, by simp [linkStep, hc]⟩
  · by_cases hw : p.isWarrant
    · exact ⟨st, by simp [linkStep, hc, hw]⟩
    · rcases hpn : getParentNumber p.number with _ | parent
      · exact ⟨st, by simp [linkStep, hc, hw, hpn]⟩
      · have hr : ∃ r, resolveSource nm p = .ok r := by
          rcases hb : p.backref with _ | b
          · exact ⟨dget? p.number nm, by simp [resolveSource, hb]⟩
          · rcases hg : dget? b nm with _ | v
            · exfalso
              have hfail : stepFails nm p = true := by
                simp [stepFails, hb, hg, hc, hw, hpn]
              rw [hfail] at h
              cases h
            · exact ⟨some v, by simp [resolveSource, hb, hg]⟩
        rcases hr with ⟨r, hr⟩
        rcases r with _ | src
        · exact ⟨st, by simp [linkStep, hc, hw, hpn, hr]⟩
        · rcases hg : dget? parent nm with _ | target
          · rcases hgp : getParentNumber parent with _ | gp
            · exact ⟨st, by simp [linkStep, hc, hw, hpn, hr, hg, hgp]⟩
            · by_cases hgm : dmem gp nm
              · exact ⟨{ st with
                    groups := gappend (parent, p.polarity.getD "supports") p st.groups },
                  by simp [linkStep, hc, hw, hpn, hr, hg, hgp, hgm]⟩
              · exact ⟨st, by simp [linkStep, hc, hw, hpn, hr, hg, hgp, hgm]⟩
          · exact ⟨{ st with
                links := st.links ++
                  [{ id := freshLinkId st.counter, source_ids := [src],
                     target_id := some target, polarity := p.polarity.getD "supports" }],
                nlid := dinsert p.number (freshLinkId st.counter) st.nlid,
                counter := st.counter + 1 },
              by simp [linkStep, hc, hw, hpn, hr, hg]⟩

theorem linkStep_error_shape (nm : NMap) (st : LinkState) (p : ParsedLine) (e : ModelError)
    (h : linkStep nm st p = .error e) : ∃ msg, e = .lineError p.lineNumber msg := by
  by_cases hf : stepFails nm p = false
  · rcases linkStep_ok_of nm st p hf with ⟨st2, h2⟩
    rw [h2] at h
    cases h
  · have hf2 : stepFails nm p = true := by
      rcases hx : stepFails nm p with _ | _
      · exact absurd hx hf
      · rfl
    simp only [stepFails] at hf2
    have hc : p.nodeType ≠ "Conclusion" := by
      intro hcc
      simp [hcc] at hf2
    have hw : p.isWarrant = false := by
      rcases hx : p.isWarrant with _ | _
      · rfl
      · simp [hx] at hf2
    rcases hb : p.backref with _ | b
    · simp [hb, hc, hw] at hf2
    · have hpn : (getParentNumber p.number).isSome := by
        rcases hx : getParentNumber p.number with _ | parent
        · simp [hx] at hf2
        · simp [hx]
      have hnone : dget? b nm = none := by
        simp only [hb, hc, hw] at hf2
        rcases hx : dget? b nm with _ | v
        · rfl
        · simp [hx] at hf2
      rw [linkStep_error_of nm st p b hc hw hpn hb hnone] at h
      exact ⟨backrefMessage b, (Except.error.inj h).symm⟩

theorem linkPass_error_shape (nm : NMap) :
    ∀ (lines : List ParsedLine) (st : LinkState) (e : ModelError),
      linkPass nm st lines = .error e → ∃ nn msg, e = .lineError nn msg := by
  intro lines
  induction lines with
  | nil => intro st e h; cases h
  | cons p ps ih =>
    intro st e h
    simp only [linkPass] at h
    rcases hs : linkStep nm st p with es | stm
    · rw [hs] at h
      simp only at h
      rcases linkStep_error_shape nm st p es hs with ⟨msg, hm⟩
      exact ⟨p.lineNumber, msg, by rw [← Except.error.inj h, hm]⟩
    · rw [hs] at h
      exact ih stm e h

theorem linkPass_error_at (nm : NMap) :
    ∀ (pre : List ParsedLine) (p : ParsedLine) (post : List ParsedLine)
      (st : LinkState) (b : String),
      (∀ q ∈ pre, stepFails nm q = false) →
      p.nodeType ≠ "Conclusion" → p.isWarrant = false →
      (getParentNumber p.number).isSome → p.backref = some b → dget? b nm = none →
      linkPass nm st (pre ++ p :: post) =
        .error (.lineError p.lineNumber (backrefMessage b)) := by
  intro pre
  induction pre with
  | nil =>
    intro p post st b hpre hc hw hpn hb hnone
    simp only [List.nil_append, linkPass]
    rw [linkStep_error_of nm st p b hc hw hpn hb hnone]
  | cons q rest ih =>
    intro p post st b hpre hc hw hpn hb hnone
    simp only [List.cons_append, linkPass]
    rcases linkStep_ok_of nm st q (hpre q (List.mem_cons_self q rest)) with ⟨st2, h2⟩
    rw [h2]
    exact ih p post st2 b (fun r hr => hpre r (List.mem_cons_of_mem q hr)) hc hw hpn hb hnone

/-! ## Referential invariants of the link passes -/

theorem any_id_append (links more : List LinkRec) (t : String)
    (h : links.any (fun l2 => l2.id = t) = true) :
    (links ++ more).any (fun l2 => l2.id = t) = true := by
  simp [List.any_append, h]

theorem linkRefsOK_append (nm : NMap) (links more : List LinkRec) (l : LinkRec)
    (h : linkRefsOK nm links l) : linkRefsOK nm (links ++ more) l := by
  rcases h with ⟨hs, t, ht, hr⟩
  refine ⟨hs, t, ht, ?_⟩
  rcases hr with hr | hr
  · exact Or.inl hr
  · exact Or.inr (any_id_append links more t hr)

theorem resolveOpt_hasVal (nm : NMap) (p : ParsedLine) (v : String)
    (h : resolveOpt nm p = some v) : nmHasVal nm v := by
  rcases hb : p.backref with _ | b
  · simp only [resolveOpt, hb] at h
    exact ⟨p.number, h⟩
  · simp only [resolveOpt, hb] at h
    exact ⟨b, h⟩

theorem stateOK_append_link (nm : NMap) (st : LinkState) (l : LinkRec)
    (hok : stateOK nm st)
    (hs : ∀ s ∈ l.source_ids, nmHasVal nm s)
    (ht : ∃ t, l.target_id = some t ∧
      (nmHasVal nm t ∨ st.links.any (fun l2 => l2.id = t) = true)) :
    (∀ l2 ∈ st.links ++ [l], linkRefsOK nm (st.links ++ [l]) l2) := by
  intro l2 hl2
  rcases List.mem_append.mp hl2 with h2 | h2
  · exact linkRefsOK_append nm st.links [l] l2 (hok.1 l2 h2)
  · have : l2 = l := by simpa using h2
    subst this
    refine ⟨hs, ?_⟩
    rcases ht with ⟨t, ht1, ht2⟩
    refine ⟨t, ht1, ?_⟩
    rcases ht2 with ht2 | ht2
    · exact Or.inl ht2
    · exact Or.inr (any_id_append st.links [l2] t ht2)

theorem linkStep_stateOK (nm : NMap) (st : LinkState) (p : ParsedLine) (st2 : LinkState)
    (h : linkStep nm st p = .ok st2) (hok : stateOK nm st) : stateOK nm st2 := by
  by_cases hc : p.nodeType = "Conclusion"
  · simp only [linkStep, if_pos hc] at h
    rw [← Except.ok.inj h]
    exact hok
  by_cases hw : p.isWarrant
  · simp only [linkStep, if_neg hc, hw, if_pos rfl] at h
    rw [← Except.ok.inj h]
    exact hok
  simp only [linkStep, if_neg hc, Bool.not_eq_true] at h
  rw [eq_false_of_ne_true hw] at h
  simp only [if_neg (by simp : ¬ (false = true))] at h
  rcases hp : getParentNumber p.number with _ | parent
  · rw [hp] at h
    rw [← Except.ok.inj h]
    exact hok
  rw [hp] at h
  rcases hr : resolveSource nm p with e | r
  · rw [hr] at h
    cases h
  rw [hr] at h
  have hro := resolveSource_ok nm p r hr
  rcases r with _ | src
  · simp only at h
    rw [← Except.ok.inj h]
    exact hok
  simp only at h
  rcases hg : dget? parent nm with _ | target
  · rw [hg] at h
    rcases hgp : getParentNumber parent with _ | gp
    · rw [hgp] at h
      rw [← Except.ok.inj h]
      exact hok
    rw [hgp] at h
    by_cases hgm : dmem gp nm
    · simp only [if_pos hgm] at h
      rw [← Except.ok.inj h]
      exact hok
    · simp only [if_neg hgm] at h
      rw [← Except.ok.inj h]
      exact hok
  · rw [hg] at h
    rw [← Except.ok.inj h]
    constructor
    · refine stateOK_append_link nm st _ hok ?_ ?_
      · intro s hsm
        have : s = src := by simpa using hsm
        subst this
        exact resolveOpt_hasVal nm p s hro
      · exact ⟨target, rfl, Or.inl ⟨parent, hg⟩⟩
    · intro numb lid hlid
      by_cases hn : p.number = numb
      · subst hn
        rw [dget?_dinsert_self] at hlid
        have : lid = freshLinkId st.counter := (Option.some.inj hlid).symm
        subst this
        simp [List.any_append]
      · rw [dget?_dinsert_ne _ _ _ _ hn] at hlid
        exact any_id_append _ _ _ (hok.2 numb lid hlid)

theorem linkPass_stateOK (nm : NMap) :
    ∀ (lines : List ParsedLine) (st st2 : LinkState),
      linkPass nm st lines = .ok st2 → stateOK nm st → stateOK nm st2 := by
  intro lines
  induction lines with
  | nil =>
    intro st st2 h hok
    simp only [linkPass] at h
    rw [← Except.ok.inj h]
    exact hok
  | cons p ps ih =>
    intro st st2 h hok
    simp only [linkPass] at h
    rcases hs : linkStep nm st p with e | stm
    · rw [hs] at h
      cases h
    · rw [hs] at h
      exact ih stm st2 h (linkStep_stateOK nm st p stm hs hok)

theorem groupStep_stateOK (nm : NMap) (st : LinkState)
    (g : (String × String) × List ParsedLine) (hok : stateOK nm st) :
    stateOK nm (groupStep nm st g) := by
  rcases hgp : getParentNumber g.1.1 with _ | gp
  · simpa [groupStep, hgp] using hok
  rcases hg : dget? gp nm with _ | target
  · simpa [groupStep, hgp, hg] using hok
  by_cases he : (g.2.filterMap (resolveOpt nm)).isEmpty
  · simpa [groupStep, hgp, hg, he] using hok
  · simp only [groupStep, hgp, hg, he, Bool.false_eq_true, if_neg (by simp : ¬ False)]
    constructor
    · refine stateOK_append_link nm st _ hok ?_ ?_
      · intro s hsm
        simp only [List.mem_filterMap] at hsm
        rcases hsm with ⟨q, _, hq⟩
        exact resolveOpt_hasVal nm q s hq
      · exact ⟨target, rfl, Or.inl ⟨gp, hg⟩⟩
    · intro numb lid hlid
      rcases hfn : (g.2.find? (fun p => (resolveOpt nm p).isSome)).map (·.number) with _ | fn
      · rw [hfn] at hlid
        simp only at hlid
        exact any_id_append _ _ _ (hok.2 numb lid hlid)
      · rw [hfn] at hlid
        simp only at hlid
        by_cases hn : fn = numb
        · subst hn
          rw [dget?_dinsert_self] at hlid
          have : lid = freshLinkId st.counter := (Option.some.inj hlid).symm
          subst this
          simp [List.any_append]
        · rw [dget?_dinsert_ne _ _ _ _ hn] at hlid
          exact any_id_append _ _ _ (hok.2 numb lid hlid)

theorem groupPass_stateOK (nm : NMap) :
    ∀ (gs : Groups) (st : LinkState), stateOK nm st → stateOK nm (groupPass nm st gs) := by
  intro gs
  induction gs with
  | nil => intro st hok; simpa [groupPass] using hok
  | cons g rest ih =>
    intro st hok
    simp only [groupPass]
    exact ih (groupStep nm st g) (groupStep_stateOK nm st g hok)

theorem warrantPass_stateOK (nm : NMap) :
    ∀ (lines : List ParsedLine) (st : LinkState),
      stateOK nm st → stateOK nm (warrantPass nm st lines) := by
  intro lines
  induction lines with
  | nil => intro st hok; simpa [warrantPass] using hok
  | cons p ps ih =>
    intro st hok
    by_cases hw : p.isWarrant
    · rcases hr : resolveOpt nm p with _ | src
      · have heq : warrantPass nm st (p :: ps) = warrantPass nm st ps := by
          simp [warrantPass, hw, hr]
        rw [heq]
        exact ih st hok
      · rcases hp : getParentNumber p.number with _ | parent
        · have heq : warrantPass nm st (p :: ps) = warrantPass nm st ps := by
            simp [warrantPass, hw, hr, hp]
          rw [heq]
          exact ih st hok
        · rcases hl : dget? parent st.nlid with _ | tlid
          · have heq : warrantPass nm st (p :: ps) = warrantPass nm st ps := by
              simp [warrantPass, hw, hr, hp, hl]
            rw [heq]
            exact ih st hok
          · have heq : warrantPass nm st (p :: ps) = warrantPass nm
                { st with
                  links := st.links ++
                    [{ id := freshLinkId st.counter, source_ids := [src],
                       target_id := some tlid, polarity := "supports" }],
                  counter := st.counter + 1 } ps := by
              simp [warrantPass, hw, hr, hp, hl]
            rw [heq]
            refine ih _ ?_
            constructor
            · refine stateOK_append_link nm st _ hok ?_ ?_
              · intro s hsm
                have : s = src := by simpa using hsm
                subst this
                exact resolveOpt_hasVal nm p s hr
              · exact ⟨tlid, rfl, Or.inr (hok.2 parent tlid hl)⟩
            · intro numb lid hlid
              exact any_id_append _ _ _ (hok.2 numb lid hlid)
    · have heq : warrantPass nm st (p :: ps) = warrantPass nm st ps := by
        simp [warrantPass, hw]
      rw [heq]
      exact ih st hok

/-! ## Constructor-validation lemmas -/

theorem dmem_nodeRegistry (nodes : List NodeRec) (k : String) :
    dmem k (nodeRegistry nodes) = nodes.any (fun n => n.id = k) := by
  rw [nodeRegistry, dmem_foldl_dinsert (fun n : NodeRec => n.id) (fun n => n) nodes [] k]
  simp [dmem, dget?]

theorem dmem_linkRegistry (links : List LinkRec) (k : String) :
    dmem k (linkRegistry links) = links.any (fun l => l.id = k) := by
  rw [linkRegistry, dmem_foldl_dinsert (fun l : LinkRec => l.id) (fun l => l) links [] k]
  simp [dmem, dget?]

theorem mem_linkRegistry (links : List LinkRec) (p : String × LinkRec)
    (h : p ∈ linkRegistry links) : p.2 ∈ links ∧ p.1 = p.2.id := by
  rcases mem_foldl_dinsert (fun l : LinkRec => l.id) (fun l => l) links [] p h with h2 | ⟨x, hx, hp⟩
  · cases h2
  · subst hp
    exact ⟨hx, rfl⟩

theorem validateRef_ok (nodesD : List (String × NodeRec)) (linksD : List (String × LinkRec))
    (refId context refType : String)
    (h : (dmem refId nodesD || dmem refId linksD) = true) :
    validateRef nodesD linksD refId context refType = .ok () := by
  simp [validateRef, h]

theorem validateRef_error_shape (nodesD : List (String × NodeRec))
    (linksD : List (String × LinkRec)) (refId context refType : String) (e : ModelError)
    (h : validateRef nodesD linksD refId context refType = .error e) :
    e = .refError refType context refId ∧ (dmem refId nodesD || dmem refId linksD) = false := by
  by_cases hm : (dmem refId nodesD || dmem refId linksD) = true
  · rw [validateRef_ok nodesD linksD refId context refType hm] at h
    cases h
  · have hm2 : (dmem refId nodesD || dmem refId linksD) = false := by
      rcases hx : (dmem refId nodesD || dmem refId linksD) with _ | _
      · rfl
      · exact absurd hx hm
    simp only [validateRef, hm2, Bool.false_eq_true, if_neg (by simp : ¬ False)] at h
    exact ⟨(Except.error.inj h).symm, hm2⟩

theorem validateSources_ok (nodesD : List (String × NodeRec))
    (linksD : List (String × LinkRec)) (linkId : String) :
    ∀ (sids : List String) (es : List (String × String)),
      (∀ s ∈ sids, (dmem s nodesD || dmem s linksD) = true) →
      ∃ es2, validateSources nodesD linksD linkId sids es = .ok es2 := by
  intro sids
  induction sids with
  | nil => intro es hs; exact ⟨es, rfl⟩
  | cons sid rest ih =>
    intro es hs
    have h1 := hs sid (List.mem_cons_self sid rest)
    simp only [validateSources, validateRef_ok nodesD linksD sid linkId "link source" h1]
    exact ih (es ++ [(sid, linkId)]) (fun s hmem => hs s (List.mem_cons_of_mem sid hmem))

theorem validateSources_error_shape (nodesD : List (String × NodeRec))
    (linksD : List (String × LinkRec)) (linkId : String) :
    ∀ (sids : List String) (es : List (String × String)) (e : ModelError),
      validateSources nodesD linksD linkId sids es = .error e →
      ∃ s, s ∈ sids ∧ e = .refError "link source" linkId s ∧
        (dmem s nodesD || dmem s linksD) = false := by
  intro sids
  induction sids with
  | nil => intro es e h; cases h
  | cons sid rest ih =>
    intro es e h
    simp only [validateSources] at h
    rcases hv : validateRef nodesD linksD sid linkId "link source" with ev | u
    · rw [hv] at h
      simp only at h
      have he := Except.error.inj h
      subst he
      rcases validateRef_error_shape nodesD linksD sid linkId "link source" ev hv with ⟨he2, hm⟩
      exact ⟨sid, List.mem_cons_self sid rest, he2, hm⟩
    · rw [hv] at h
      simp only at h
      rcases ih (es ++ [(sid, linkId)]) e h with ⟨s, hmem, he2, hm⟩
      exact ⟨s, List.mem_cons_of_mem sid hmem, he2, hm⟩

theorem linkEdges_ok (nodesD : List (String × NodeRec)) (linksD : List (String × LinkRec))
    (linkId : String) (link : LinkRec)
    (hs : ∀ s ∈ link.source_ids, (dmem s nodesD || dmem s linksD) = true)
    (ht : ∀ t, truthyTarget link.target_id = some t →
      (dmem t nodesD || dmem t linksD) = true) :
    ∃ es, linkEdges nodesD linksD linkId link = .ok es := by
  rcases validateSources_ok nodesD linksD linkId link.source_ids [] hs with ⟨es, he⟩
  simp only [linkEdges, he]
  rcases htt : truthyTarget link.target_id with _ | t
  · exact ⟨es, rfl⟩
  · simp only [validateRef_ok nodesD linksD t linkId "link target" (ht t htt)]
    exact ⟨es ++ [(linkId, t)], rfl⟩

theorem linkEdges_error_shape (nodesD : List (String × NodeRec))
    (linksD : List (String × LinkRec)) (linkId : String) (link : LinkRec) (e : ModelError)
    (h : linkEdges nodesD linksD linkId link = .error e) :
    ∃ rt rid, e = .refError rt linkId rid ∧ (dmem rid nodesD || dmem rid linksD) = false := by
  simp only [linkEdges] at h
  rcases hv : validateSources nodesD linksD linkId link.source_ids [] with ev | es
  · rw [hv] at h
    simp only at h
    have he := Except.error.inj h
    subst he
    rcases validateSources_error_shape nodesD linksD linkId link.source_ids [] ev hv with
      ⟨s, _, he2, hm⟩
    exact ⟨"link source", s, he2, hm⟩
  · rw [hv] at h
    simp only at h
    rcases htt : truthyTarget link.target_id with _ | t
    · rw [htt] at h
      cases h
    · rw [htt] at h
      simp only at h
      rcases hvr : validateRef nodesD linksD t linkId "link target" with ev | u
      · rw [hvr] at h
        simp only at h
        have he := Except.error.inj h
        subst he
        rcases validateRef_error_shape nodesD linksD t linkId "link target" ev hvr with ⟨he2, hm⟩
        exact ⟨"link target", t, he2, hm⟩
      · rw [hvr] at h
        cases h

theorem phase3_ok (nodesD : List (String × NodeRec)) (linksD : List (String × LinkRec)) :
    ∀ (entries : List (String × LinkRec)),
      (∀ q ∈ entries,
        (∀ s ∈ q.2.source_ids, (dmem s nodesD || dmem s linksD) = true) ∧
        (∀ t, truthyTarget q.2.target_id = some t →
          (dmem t nodesD || dmem t linksD) = true)) →
      ∃ es, phase3 nodesD linksD entries = .ok es := by
  intro entries
  induction entries with
  | nil => intro hq; exact ⟨[], rfl⟩
  | cons q rest ih =>
    intro hq
    rcases hq q (List.mem_cons_self q rest) with ⟨hs, ht⟩
    rcases linkEdges_ok nodesD linksD q.1 q.2 hs ht with ⟨es, he⟩
    rcases ih (fun r hr => hq r (List.mem_cons_of_mem q hr)) with ⟨es2, he2⟩
    exact ⟨es ++ es2, by simp only [phase3, he, he2]⟩

theorem phase3_error_shape (nodesD : List (String × NodeRec))
    (linksD : List (String × LinkRec)) :
    ∀ (entries : List (String × LinkRec)) (e : ModelError),
      phase3 nodesD linksD entries = .error e →
      ∃ rt ctx rid, e = .refError rt ctx rid ∧
        (dmem rid nodesD || dmem rid linksD) = false := by
  intro entries
  induction entries with
  | nil => intro e h; cases h
  | cons q rest ih =>
    intro e h
    simp only [phase3] at h
    rcases hle : linkEdges nodesD linksD q.1 q.2 with ev | es
    · rw [hle] at h
      simp only at h
      have he := Except.error.inj h
      subst he
      rcases linkEdges_error_shape nodesD linksD q.1 q.2 ev hle with ⟨rt, rid, he2, hm⟩
      exact ⟨rt, q.1, rid, he2, hm⟩
    · rw [hle] at h
      simp only at h
      rcases hr : phase3 nodesD linksD rest with er | es2
      · rw [hr] at h
        simp only at h
        have he := Except.error.inj h
        subst he
        exact ih er hr
      · rw [hr] at h
        cases h

theorem buildGraphModel_ok (nodes : List NodeRec) (links : List LinkRec)
    (h : ∀ l ∈ links,
      (∀ s ∈ l.source_ids,
        (nodes.any (fun n => n.id = s) || links.any (fun l2 => l2.id = s)) = true) ∧
      (∀ t, truthyTarget l.target_id = some t →
        (nodes.any (fun n => n.id = t) || links.any (fun l2 => l2.id = t)) = true)) :
    ∃ m, buildGraphModel nodes links = .ok m := by
  have hq : ∀ q ∈ linkRegistry links,
      (∀ s ∈ q.2.source_ids,
        (dmem s (nodeRegistry nodes) || dmem s (linkRegistry links)) = true) ∧
      (∀ t, truthyTarget q.2.target_id = some t →
        (dmem t (nodeRegistry nodes) || dmem t (linkRegistry links)) = true) := by
    intro q hqm
    rcases mem_linkRegistry links q hqm with ⟨hmem, _⟩
    rcases h q.2 hmem with ⟨hs, ht⟩
    constructor
    · intro s hsm
      rw [dmem_nodeRegistry, dmem_linkRegistry]
      exact hs s hsm
    · intro t htt
      rw [dmem_nodeRegistry, dmem_linkRegistry]
      exact ht t htt
  rcases phase3_ok (nodeRegistry nodes) (linkRegistry links) (linkRegistry links) hq with
    ⟨es, he⟩
  exact ⟨{ nodes := nodeRegistry nodes, links := linkRegistry links, edges := es },
    by simp only [buildGraphModel, he]⟩

theorem validateRef_ok_inv (nodesD : List (String × NodeRec))
    (linksD : List (String × LinkRec)) (refId context refType : String) (u : Unit)
    (h : validateRef nodesD linksD refId context refType = .ok u) :
    (dmem refId nodesD || dmem refId linksD) = true := by
  rcases hc : (dmem refId nodesD || dmem refId linksD) with _ | _
  · simp only [validateRef, hc, Bool.false_eq_true, if_neg (by simp : ¬ False)] at h
    cases h
  · rfl

theorem validateSources_ok_inv (nodesD : List (String × NodeRec))
    (linksD : List (String × LinkRec)) (linkId : String) :
    ∀ (sids : List String) (es es2 : List (String × String)),
      validateSources nodesD linksD linkId sids es = .ok es2 →
      ∀ s ∈ sids, (dmem s nodesD || dmem s linksD) = true := by
  intro sids
  induction sids with
  | nil => intro es es2 h s hs; cases hs
  | cons sid rest ih =>
    intro es es2 h s hs
    simp only [validateSources] at h
    rcases hv : validateRef nodesD linksD sid linkId "link source" with ev | u
    · rw [hv] at h
      cases h
    · rw [hv] at h
      simp only at h
      rcases List.mem_cons.mp hs with hs2 | hs2
      · subst hs2
        exact validateRef_ok_inv nodesD linksD s linkId "link source" u hv
      · exact ih (es ++ [(sid, linkId)]) es2 h s hs2

theorem linkEdges_ok_inv (nodesD : List (String × NodeRec))
    (linksD : List (String × LinkRec)) (linkId : String) (link : LinkRec)
    (es : List (String × String)) (h : linkEdges nodesD linksD linkId link = .ok es) :
    (∀ s ∈ link.source_ids, (dmem s nodesD || dmem s linksD) = true) ∧
    (∀ t, truthyTarget link.target_id = some t →
      (dmem t nodesD || dmem t linksD) = true) := by
  simp only [linkEdges] at h
  rcases hv : validateSources nodesD linksD linkId link.source_ids [] with ev | es1
  · rw [hv] at h
    cases h
  · rw [hv] at h
    simp only at h
    refine ⟨validateSources_ok_inv nodesD linksD linkId link.source_ids [] es1 hv, ?_⟩
    intro t htt
    rw [htt] at h
    simp only at h
    rcases hvr : validateRef nodesD linksD t linkId "link target" with ev | u
    · rw [hvr] at h
      cases h
    · exact validateRef_ok_inv nodesD linksD t linkId "link target" u hvr

theorem phase3_ok_inv (nodesD : List (String × NodeRec))
    (linksD : List (String × LinkRec)) :
    ∀ (entries : List (String × LinkRec)) (es : List (String × String)),
      phase3 nodesD linksD entries = .ok es →
      ∀ q ∈ entries,
        (∀ s ∈ q.2.source_ids, (dmem s nodesD || dmem s linksD) = true) ∧
        (∀ t, truthyTarget q.2.target_id = some t →
          (dmem t nodesD || dmem t linksD) = true) := by
  intro entries
  induction entries with
  | nil => intro es h q hq; cases hq
  | cons q0 rest ih =>
    intro es h q hq
    simp only [phase3] at h
    rcases hle : linkEdges nodesD linksD q0.1 q0.2 with ev | es1
    · rw [hle] at h
      cases h
    · rw [hle] at h
      simp only at h
      rcases hr : phase3 nodesD linksD rest with er | es2
      · rw [hr] at h
        cases h
      · rw [hr] at h
        rcases List.mem_cons.mp hq with hq2 | hq2
        · subst hq2
          exact linkEdges_ok_inv nodesD linksD q.1 q.2 es1 hle
        · exact ih es2 hr q hq2

theorem buildGraphModel_ok_shape (nodes : List NodeRec) (links : List LinkRec)
    (m : GraphModel) (h : buildGraphModel nodes links = .ok m) :
    m.nodes = nodeRegistry nodes ∧ m.links = linkRegistry links := by
  simp only [buildGraphModel] at h
  rcases hp : phase3 (nodeRegistry nodes) (linkRegistry links) (linkRegistry links) with e | es
  · rw [hp] at h
    cases h
  · rw [hp] at h
    simp only at h
    rw [← Except.ok.inj h]
    exact ⟨rfl, rfl⟩

theorem buildGraphModel_error_inv (nodes : List NodeRec) (links : List LinkRec)
    (e : ModelError) (h : buildGraphModel nodes links = .error e) :
    ∃ rt ctx rid, e = .refError rt ctx rid ∧
      (dmem rid (nodeRegistry nodes) || dmem rid (linkRegistry links)) = false := by
  simp only [buildGraphModel] at h
  rcases hp : phase3 (nodeRegistry nodes) (linkRegistry links) (linkRegistry links) with ep | es
  · rw [hp] at h
    simp only at h
    have he := Except.error.inj h
    subst he
    exact phase3_error_shape (nodeRegistry nodes) (linkRegistry links) (linkRegistry links) ep hp
  · rw [hp] at h
    cases h

theorem map_congr_mem (l : List α) (f g : α → β) (h : ∀ x ∈ l, f x = g x) :
    l.map f = l.map g := by
  induction l with
  | nil => rfl
  | cons x rest ih =>
    simp only [List.map_cons]
    rw [h x (List.mem_cons_self x rest), ih (fun y hy => h y (List.mem_cons_of_mem x hy))]

theorem dget?_append (k : String) (a b : List (String × α)) :
    dget? k (a ++ b) =
      (match dget? k a with
       | some v => some v
       | none => dget? k b) := by
  induction a with
  | nil => simp [dget?]
  | cons p rest ih =>
    by_cases hp : p.1 = k
    · simp [dget?, hp]
    · simp [dget?, hp, ih]

theorem dmem_append (k : String) (a b : List (String × α)) :
    dmem k (a ++ b) = (dmem k a || dmem k b) := by
  simp only [dmem, dget?_append]
  rcases dget? k a with _ | v
  · simp
  · simp

theorem foldl_dinsert_eq_append (f : α → String) (g : α → β) :
    ∀ (l : List α) (d0 : List (String × β)),
      (∀ x ∈ l, dmem (f x) d0 = false) → (l.map f).Nodup →
      l.foldl (fun d x => dinsert (f x) (g x) d) d0 = d0 ++ l.map (fun x => (f x, g x)) := by
  intro l
  induction l with
  | nil => intro d0 _ _; simp
  | cons x rest ih =>
    intro d0 hd0 hnd
    simp only [List.foldl_cons]
    rw [dinsert_of_not_mem (f x) (g x) d0 (hd0 x (List.mem_cons_self x rest))]
    have hnd2 : (rest.map f).Nodup := by
      simp only [List.map_cons, List.nodup_cons] at hnd
      exact hnd.2
    have hx : ∀ y ∈ rest, ¬ (f y = f x) := by
      intro y hy he
      simp only [List.map_cons, List.nodup_cons] at hnd
      exact hnd.1 (he ▸ List.mem_map_of_mem f hy)
    have hd0b : ∀ y ∈ rest, dmem (f y) (d0 ++ [(f x, g x)]) = false := by
      intro y hy
      rw [dmem_append]
      have h1 := hd0 y (List.mem_cons_of_mem x hy)
      have h2 : dmem (f y) [(f x, g x)] = false := by
        simp [dmem, dget?, Ne.symm (hx y hy)]
      rw [h1, h2]
      rfl
    rw [ih (d0 ++ [(f x, g x)]) hd0b hnd2]
    simp

theorem nodeRegistry_eq_of_nodup (nodes : List NodeRec)
    (h : (nodes.map (fun n => n.id)).Nodup) :
    nodeRegistry nodes = nodes.map (fun n => (n.id, n)) := by
  rw [nodeRegistry,
    foldl_dinsert_eq_append (fun n : NodeRec => n.id) (fun n => n) nodes []
      (by intro x _; rfl) h]
  rfl

theorem linkRegistry_eq_of_nodup (links : List LinkRec)
    (h : (links.map (fun l => l.id)).Nodup) :
    linkRegistry links = links.map (fun l => (l.id, l)) := by
  rw [linkRegistry,
    foldl_dinsert_eq_append (fun l : LinkRec => l.id) (fun l => l) links []
      (by intro x _; rfl) h]
  rfl

/-! ## BFS containment lemmas -/

theorem contains_iff_mem (l : List String) (x : String) : l.contains x = true ↔ x ∈ l := by
  simp [List.contains_iff_exists_mem_beq]

theorem sunion_contains_left (a b : List String) (x : String)
    (h : a.contains x = true) : (sunion a b).contains x = true := by
  rw [contains_iff_mem] at h ⊢
  exact List.mem_append.mpr (Or.inl h)

theorem sunion_contains_right (a b : List String) (x : String)
    (h : b.contains x = true) : (sunion a b).contains x = true := by
  by_cases ha : a.contains x = true
  · exact sunion_contains_left a b x ha
  · rw [contains_iff_mem] at h ⊢
    refine List.mem_append.mpr (Or.inr ?_)
    refine List.mem_filter.mpr ⟨h, ?_⟩
    rw [eq_false_of_ne_true ha]
    rfl

theorem bfsLoop_mono (neigh : String → List String) :
    ∀ (n : Nat) (collected frontier : List String) (x : String),
      collected.contains x = true →
      (bfsLoop neigh n collected frontier).contains x = true := by
  intro n
  induction n with
  | zero => intro collected frontier x h; simpa [bfsLoop] using h
  | succ n ih =>
    intro collected frontier x h
    simp only [bfsLoop]
    exact ih _ _ x (sunion_contains_left collected frontier x h)

theorem bfsLoop_frontier (neigh : String → List String) (n : Nat)
    (collected frontier : List String) (x : String) (h : frontier.contains x = true) :
    (bfsLoop neigh (n + 1) collected frontier).contains x = true := by
  simp only [bfsLoop]
  exact bfsLoop_mono neigh n _ _ x (sunion_contains_right collected frontier x h)

theorem subgraphCollected_contains_root (m : GraphModel) (roots : List String)
    (du dd : Nat) (r : String) (h : roots.contains r = true) :
    (subgraphCollected m roots du dd).contains r = true := by
  simp only [subgraphCollected]
  exact bfsLoop_frontier m.predecessors dd _ roots r h

theorem truthyTarget_some (t t2 : String) (h : truthyTarget (some t) = some t2) : t2 = t := by
  simp only [truthyTarget] at h
  by_cases he : t = ""
  · simp [he] at h
  · simp only [if_neg he] at h
    exact (Option.some.inj h).symm

theorem stateOK_init (nm : NMap) : stateOK nm LinkState.init := by
  constructor
  · intro l hl
    cases hl
  · intro numb lid h
    cases h

/-! ## Claim theorems -/

/-- C10: for every outline text on which parse runs, the result is either
a successfully constructed GraphModel or an OutlineParseError; the
referential-error branch of the final GraphModel construction is
unreachable, because every link emitted by the passes refers only to node
ids of the same parse or to ids of earlier-created links. -/
theorem C10_parse_never_referential : ∀ text, nonReferentialResult (parseOutline text) = true := by
  intro text
  unfold parseOutline
  rcases hscan : scanLines 1 (splitOnChar '\n' text.data) with e | lines
  · rcases scanLines_error_shape _ 1 e hscan with ⟨nn, msg, he⟩
    subst he
    rfl
  · rcases lines with _ | ⟨l0, ls⟩
    · rfl
    · simp only
      rcases hlp : linkPass (buildNodes (l0 :: ls)).1 LinkState.init (l0 :: ls) with e | st1
      · rcases linkPass_error_shape (buildNodes (l0 :: ls)).1 (l0 :: ls) LinkState.init e hlp
          with ⟨nn, msg, he⟩
        subst he
        rfl
      · show nonReferentialResult
          (buildGraphModel (buildNodes (l0 :: ls)).2
            (warrantPass (buildNodes (l0 :: ls)).1
              (groupPass (buildNodes (l0 :: ls)).1 st1 st1.groups) (l0 :: ls)).links) = true
        have hok3 : stateOK (buildNodes (l0 :: ls)).1
            (warrantPass (buildNodes (l0 :: ls)).1
              (groupPass (buildNodes (l0 :: ls)).1 st1 st1.groups) (l0 :: ls)) := by
          refine warrantPass_stateOK _ (l0 :: ls) _ ?_
          refine groupPass_stateOK _ st1.groups st1 ?_
          exact linkPass_stateOK _ (l0 :: ls) LinkState.init st1 hlp
            (stateOK_init (buildNodes (l0 :: ls)).1)
        have hreg : ∀ v, nmHasVal (buildNodes (l0 :: ls)).1 v →
            ((buildNodes (l0 :: ls)).2).any (fun n => n.id = v) = true := by
          intro v hv
          rcases hv with ⟨numb, hnv⟩
          exact buildNodes_values (l0 :: ls) numb v hnv
        have hcond : ∀ l ∈ (warrantPass (buildNodes (l0 :: ls)).1
              (groupPass (buildNodes (l0 :: ls)).1 st1 st1.groups) (l0 :: ls)).links,
            (∀ s ∈ l.source_ids,
              (((buildNodes (l0 :: ls)).2).any (fun n => n.id = s) ||
                ((warrantPass (buildNodes (l0 :: ls)).1
                  (groupPass (buildNodes (l0 :: ls)).1 st1 st1.groups)
                  (l0 :: ls)).links).any (fun l2 => l2.id = s)) = true) ∧
            (∀ t, truthyTarget l.target_id = some t →
              (((buildNodes (l0 :: ls)).2).any (fun n => n.id = t) ||
                ((warrantPass (buildNodes (l0 :: ls)).1
                  (groupPass (buildNodes (l0 :: ls)).1 st1 st1.groups)
                  (l0 :: ls)).links).any (fun l2 => l2.id = t)) = true) := by
          intro l hl
          rcases hok3.1 l hl with ⟨hs, t, ht, hr⟩
          constructor
          · intro s hsm
            rw [hreg s (hs s hsm)]
            simp
          · intro t2 htt
            rw [ht] at htt
            have ht2 := truthyTarget_some t t2 htt
            subst ht2
            rcases hr with hr | hr
            · rw [hreg t2 hr]
              simp
            · rw [hr]
              simp
        rcases buildGraphModel_ok (buildNodes (l0 :: ls)).2
            (warrantPass (buildNodes (l0 :: ls)).1
              (groupPass (buildNodes (l0 :: ls)).1 st1 st1.groups) (l0 :: ls)).links
            hcond with ⟨m, hm⟩
        rw [hm]
        rfl

/-- C5 (amended): a failing construction always reports a referential
error naming an id that is registered neither as a node nor as a link; and
construction succeeds exactly when every link surviving id deduplication
in the link registry has all its sources registered and its target, when
present and nonempty, registered.  (The original claim fails for a link
whose target id is the empty string: the truthiness check skips its
validation.) -/
theorem C5_referential_validation (nodes : List NodeRec) (links : List LinkRec) :
    (∀ e, buildGraphModel nodes links = .error e →
      ∃ rt ctx rid, e = .refError rt ctx rid ∧
        (dmem rid (nodeRegistry nodes) || dmem rid (linkRegistry links)) = false) ∧
    ((∃ m, buildGraphModel nodes links = .ok m) ↔
      ∀ q ∈ linkRegistry links,
        (∀ s ∈ q.2.source_ids,
          (dmem s (nodeRegistry nodes) || dmem s (linkRegistry links)) = true) ∧
        (∀ t, truthyTarget q.2.target_id = some t →
          (dmem t (nodeRegistry nodes) || dmem t (linkRegistry links)) = true)) := by
  refine ⟨buildGraphModel_error_inv nodes links, ?_, ?_⟩
  · rintro ⟨m, hm⟩ q hq
    simp only [buildGraphModel] at hm
    rcases hp : phase3 (nodeRegistry nodes) (linkRegistry links) (linkRegistry links)
      with e | es
    · rw [hp] at hm
      cases hm
    · exact phase3_ok_inv (nodeRegistry nodes) (linkRegistry links) (linkRegistry links)
        es hp q hq
  · intro hcond
    rcases phase3_ok (nodeRegistry nodes) (linkRegistry links) (linkRegistry links) hcond
      with ⟨es, he⟩
    exact ⟨{ nodes := nodeRegistry nodes, links := linkRegistry links, edges := es },
      by simp only [buildGraphModel, he]⟩

/-- C5 counterexample: a link whose target id is the empty string is
accepted by the constructor although that target id is registered nowhere,
contradicting the claim that construction fails whenever a link contains
an unregistered target id. -/
theorem C5_counterexample :
    (∃ m, buildGraphModel emptyTargetNodes emptyTargetLinks = .ok m) ∧
    emptyTargetLinks.any (fun l => l.target_id = some "") = true ∧
    (dmem "" (nodeRegistry emptyTargetNodes) || dmem "" (linkRegistry emptyTargetLinks)) =
      false :=
  ⟨⟨_, rfl⟩, rfl, rfl⟩

/-- C5 witness: the amended theorem applied to a link with a dangling
source id, whose construction fails naming that id. -/
theorem C5_witness :
    ∃ rt ctx rid, (ModelError.refError "link source" "L" "ghost") = .refError rt ctx rid ∧
      (dmem rid (nodeRegistry danglingNodes) || dmem rid (linkRegistry danglingLinks)) =
        false :=
  (C5_referential_validation danglingNodes danglingLinks).1
    (.refError "link source" "L" "ghost") rfl

/-- C8 (amended): the node and link registries of a constructed model are
disjoint whenever the input node ids and link ids are disjoint; the
constructor itself does not enforce disjointness (see the
counterexample). -/
theorem C8_disjoint_registries (nodes : List NodeRec) (links : List LinkRec)
    (hd : nodes.all (fun n => !(links.any (fun l => l.id = n.id))) = true)
    (m : GraphModel) (h : buildGraphModel nodes links = .ok m) :
    ∀ k, ¬(dmem k m.nodes = true ∧ dmem k m.links = true) := by
  intro k hk
  rcases buildGraphModel_ok_shape nodes links m h with ⟨hn, hl⟩
  rw [hn, dmem_nodeRegistry] at hk
  rw [hl, dmem_linkRegistry] at hk
  rcases hk with ⟨hk1, hk2⟩
  rcases List.any_eq_true.mp hk1 with ⟨n, hnm, hnid⟩
  have hall := List.all_eq_true.mp hd n hnm
  have hnid2 : n.id = k := of_decide_eq_true hnid
  rw [hnid2] at hall
  simp [hk2] at hall

/-- C8 counterexample: an input registering the identifier x both as a
node and as a link is accepted by the constructor, and both registries of
the resulting model contain x, contradicting the claimed disjointness for
every accepted input. -/
theorem C8_counterexample :
    ∃ m, buildGraphModel sharedIdNodes sharedIdLinks = .ok m ∧
      dmem "x" m.nodes = true ∧ dmem "x" m.links = true :=
  ⟨_, rfl, rfl, rfl⟩

/-- C8 witness: the amended theorem applied to a model whose node and link
ids are disjoint. -/
theorem C8_witness :
    ¬(dmem "a" subModel.nodes = true ∧ dmem "a" subModel.links = true) :=
  C8_disjoint_registries subNodes subLinks (by decide) subModel rfl "a"

/-- C7 (amended): get_subgraph raises the usage error on a negative depth
and the not-found error on the first unregistered root; on success the
roots are always collected, the result nodes are exactly the registered
nodes whose id was BFS-collected, and the result links are exactly the
registered links that were themselves BFS-collected and whose entire
source set and truthy target lie in the collected set.  (The original
claim omitted the requirement that the link id itself be collected; see
the counterexample.) -/
theorem C7_subgraph_spec (m : GraphModel) (roots : List String) (du dd : Int)
    (hwf : m.wellFormedB = true) :
    ((du < 0 ∨ dd < 0) →
      m.getSubgraph roots du dd =
        .error (.usageError "depth_up and depth_down must be non-negative")) ∧
    (∀ r, 0 ≤ du → 0 ≤ dd →
      roots.find? (fun r2 => !(dmem r2 m.nodes || dmem r2 m.links)) = some r →
      m.getSubgraph roots du dd = .error (.notFoundError r)) ∧
    (∀ m2, m.getSubgraph roots du dd = .ok m2 →
      (∀ r ∈ roots, (subgraphCollected m roots du.toNat dd.toNat).contains r = true) ∧
      m2.nodes = m.nodes.filter
        (fun p => (subgraphCollected m roots du.toNat dd.toNat).contains p.1) ∧
      m2.links = m.links.filter
        (fun p => keepLink (subgraphCollected m roots du.toNat dd.toNat) p.1 p.2)) := by
  have hwf2 := hwf
  simp only [GraphModel.wellFormedB, Bool.and_eq_true] at hwf2
  obtain ⟨⟨⟨ha1, ha2⟩, ha3⟩, ha4⟩ := hwf2
  have hid_nodes : ∀ p ∈ m.nodes, p.2.id = p.1 := by
    intro p hp
    exact of_decide_eq_true (List.all_eq_true.mp ha1 p hp)
  have hnd_nodes : (m.nodes.map (fun p => p.1)).Nodup := of_decide_eq_true ha2
  have hid_links : ∀ p ∈ m.links, p.2.id = p.1 := by
    intro p hp
    exact of_decide_eq_true (List.all_eq_true.mp ha3 p hp)
  have hnd_links : (m.links.map (fun p => p.1)).Nodup := of_decide_eq_true ha4
  refine ⟨?_, ?_, ?_⟩
  · intro hneg
    have hcond : (decide (du < 0) || decide (dd < 0)) = true := by
      rcases hneg with hn | hn
      · simp [hn]
      · simp [hn]
    simp only [GraphModel.getSubgraph, hcond, if_true]
  · intro r hdu hdd hfind
    have hcond : (decide (du < 0) || decide (dd < 0)) = false := by
      simp [not_lt.mpr hdu, not_lt.mpr hdd]
    simp only [GraphModel.getSubgraph, hcond, Bool.false_eq_true, if_false, hfind]
  · intro m2 h
    by_cases hcond : (decide (du < 0) || decide (dd < 0)) = true
    · simp only [GraphModel.getSubgraph, hcond, if_true] at h
      cases h
    · have hcond2 : (decide (du < 0) || decide (dd < 0)) = false := by
        rcases hx : (decide (du < 0) || decide (dd < 0)) with _ | _
        · rfl
        · exact absurd hx hcond
      simp only [GraphModel.getSubgraph, hcond2, Bool.false_eq_true, if_false] at h
      rcases hfind : roots.find? (fun r2 => !(dmem r2 m.nodes || dmem r2 m.links))
        with _ | r
      · rw [hfind] at h
        simp only at h
        constructor
        · intro r hr
          exact subgraphCollected_contains_root m roots du.toNat dd.toNat r
            ((contains_iff_mem roots r).mpr hr)
        · rcases buildGraphModel_ok_shape _ _ m2 h with ⟨hn2, hl2⟩
          constructor
          · rw [hn2]
            have hmapid : ((m.nodes.filter (fun p =>
                  (subgraphCollected m roots du.toNat dd.toNat).contains p.1)).map
                  (fun p => p.2)).map (fun n => n.id) =
                (m.nodes.filter (fun p =>
                  (subgraphCollected m roots du.toNat dd.toNat).contains p.1)).map
                  (fun p => p.1) := by
              rw [List.map_map]
              exact map_congr_mem _ _ _ (fun p hp =>
                hid_nodes p (List.mem_of_mem_filter hp))
            have hnd2 : (((m.nodes.filter (fun p =>
                (subgraphCollected m roots du.toNat dd.toNat).contains p.1)).map
                (fun p => p.2)).map (fun n => n.id)).Nodup := by
              rw [hmapid]
              exact List.Nodup.sublist
                (List.Sublist.map (fun p => p.1) (List.filter_sublist m.nodes)) hnd_nodes
            rw [nodeRegistry_eq_of_nodup _ hnd2, List.map_map]
            have : (m.nodes.filter (fun p =>
                (subgraphCollected m roots du.toNat dd.toNat).contains p.1)).map
                ((fun n : NodeRec => (n.id, n)) ∘ fun p => p.2) =
              (m.nodes.filter (fun p =>
                (subgraphCollected m roots du.toNat dd.toNat).contains p.1)).map
                (fun p => p) := by
              refine map_congr_mem _ _ _ ?_
              intro p hp
              have := hid_nodes p (List.mem_of_mem_filter hp)
              simp [Function.comp, this]
            rw [this, List.map_id']
          · rw [hl2]
            have hmapid : ((m.links.filter (fun p =>
                  keepLink (subgraphCollected m roots du.toNat dd.toNat) p.1 p.2)).map
                  (fun p => p.2)).map (fun l => l.id) =
                (m.links.filter (fun p =>
                  keepLink (subgraphCollected m roots du.toNat dd.toNat) p.1 p.2)).map
                  (fun p => p.1) := by
              rw [List.map_map]
              exact map_congr_mem _ _ _ (fun p hp =>
                hid_links p (List.mem_of_mem_filter hp))
            have hnd2 : (((m.links.filter (fun p =>
                keepLink (subgraphCollected m roots du.toNat dd.toNat) p.1 p.2)).map
                (fun p => p.2)).map (fun l => l.id)).Nodup := by
              rw [hmapid]
              exact List.Nodup.sublist
                (List.Sublist.map (fun p => p.1) (List.filter_sublist m.links)) hnd_links
            rw [linkRegistry_eq_of_nodup _ hnd2, List.map_map]
            have : (m.links.filter (fun p =>
                keepLink (subgraphCollected m roots du.toNat dd.toNat) p.1 p.2)).map
                ((fun l : LinkRec => (l.id, l)) ∘ fun p => p.2) =
              (m.links.filter (fun p =>
                keepLink (subgraphCollected m roots du.toNat dd.toNat) p.1 p.2)).map
                (fun p => p) := by
              refine map_congr_mem _ _ _ ?_
              intro p hp
              have := hid_links p (List.mem_of_mem_filter hp)
              simp [Function.comp, this]
            rw [this, List.map_id']
      · rw [hfind] at h
        cases h

/-- C7 counterexample: with both endpoints of the only link taken as
roots at depth zero, the link id itself is not collected, so the result
contains no links although the entire source set and the target of that
link lie within the collected set; the claim required exactly such links
to be present. -/
theorem C7_counterexample :
    (∃ m2, subModel.getSubgraph ["a", "b"] 0 0 = .ok m2 ∧ m2.links = []) ∧
    (subgraphCollected subModel ["a", "b"] 0 0).contains "a" = true ∧
    (subgraphCollected subModel ["a", "b"] 0 0).contains "b" = true ∧
    subLinks.all (fun l => l.source_ids.all
      (fun s => (subgraphCollected subModel ["a", "b"] 0 0).contains s)) = true ∧
    subLinks.all (fun l =>
      match l.target_id with
      | some t => (subgraphCollected subModel ["a", "b"] 0 0).contains t
      | none => true) = true ∧
    subModel.links ≠ [] :=
  ⟨⟨_, rfl, rfl⟩, rfl, rfl, rfl, rfl, by decide⟩

/-- C7 witness: the amended theorem applied to the concrete two-node
model at depths one and one. -/
theorem C7_witness :
    ∃ m2, subModel.getSubgraph ["a"] 1 1 = .ok m2 ∧
      m2.nodes = subModel.nodes.filter
        (fun p => (subgraphCollected subModel ["a"] (1 : Int).toNat (1 : Int).toNat).contains
          p.1) := by
  have h := (C7_subgraph_spec subModel ["a"] 1 1 (by decide)).2.2
  exact ⟨_, rfl, (h _ rfl).2.1⟩

/-! ## String-order and stable-sort lemmas -/

theorem charsLt_irrefl : ∀ a, charsLt a a = false := by
  intro a
  induction a with
  | nil => rfl
  | cons x rest ih => simp [charsLt, ih]

theorem charsLt_asymm : ∀ a b, charsLt a b = true → charsLt b a = false := by
  intro a
  induction a with
  | nil =>
    intro b hab
    cases b with
    | nil => cases hab
    | cons y tb => rfl
  | cons x ta ih =>
    intro b hab
    cases b with
    | nil => cases hab
    | cons y tb =>
      simp only [charsLt] at hab ⊢
      rcases Nat.lt_trichotomy x.toNat y.toNat with h1 | h1 | h1
      · simp [h1, Nat.lt_asymm h1]
      · simp only [h1, Nat.lt_irrefl, if_false] at hab ⊢
        exact ih tb hab
      · simp [h1, Nat.lt_asymm h1] at hab

theorem charsLt_or : ∀ (c a b : List Char), charsLt c a = true →
    (charsLt c b = true ∨ charsLt b a = true) := by
  intro c
  induction c with
  | nil =>
    intro a b hca
    cases a with
    | nil => cases hca
    | cons ya ta =>
      cases b with
      | nil => exact Or.inr rfl
      | cons yb tb => exact Or.inl rfl
  | cons xc tc ih =>
    intro a b hca
    cases a with
    | nil => cases hca
    | cons ya ta =>
      cases b with
      | nil => exact Or.inr rfl
      | cons yb tb =>
        simp only [charsLt] at hca ⊢
        rcases Nat.lt_trichotomy xc.toNat yb.toNat with h1 | h1 | h1
        · exact Or.inl (by simp [h1])
        · rcases Nat.lt_trichotomy xc.toNat ya.toNat with h2 | h2 | h2
          · refine Or.inr ?_
            rw [h1] at h2
            simp [h2]
          · have hca2 : charsLt tc ta = true := by
              rw [h2] at hca
              simpa [Nat.lt_irrefl] using hca
            rcases ih ta tb hca2 with h3 | h3
            · refine Or.inl ?_
              rw [h1]
              simpa [Nat.lt_irrefl] using h3
            · refine Or.inr ?_
              have hby : yb.toNat = ya.toNat := h1.symm.trans h2
              rw [hby]
              simpa [Nat.lt_irrefl] using h3
          · simp [h2, Nat.lt_asymm h2] at hca
        · rcases Nat.lt_trichotomy xc.toNat ya.toNat with h2 | h2 | h2
          · refine Or.inr ?_
            have : yb.toNat < ya.toNat := Nat.lt_trans h1 h2
            simp [this]
          · refine Or.inr ?_
            rw [h2] at h1
            simp [h1]
          · simp [h2, Nat.lt_asymm h2] at hca

theorem strLeB_total (a b : String) : strLeB a b = true ∨ strLeB b a = true := by
  simp only [strLeB, strLtB, Bool.not_eq_true']
  rcases hba : charsLt b.data a.data with _ | _
  · exact Or.inl rfl
  · exact Or.inr (charsLt_asymm b.data a.data hba)

theorem strLeB_trans (a b c : String) (h1 : strLeB a b = true) (h2 : strLeB b c = true) :
    strLeB a c = true := by
  simp only [strLeB, strLtB, Bool.not_eq_true'] at h1 h2 ⊢
  rcases hca : charsLt c.data a.data with _ | _
  · rfl
  · rcases charsLt_or c.data a.data b.data hca with h3 | h3
    · rw [h2] at h3
      cases h3
    · rw [h1] at h3
      cases h3

theorem strLtB_ne (a b : String) (h : strLtB a b = true) : a ≠ b := by
  intro he
  subst he
  simp only [strLtB] at h
  rw [charsLt_irrefl a.data] at h
  cases h

theorem mem_insertLe (le : α → α → Bool) (x : α) :
    ∀ (l : List α) (z : α), z ∈ insertLe le x l ↔ z = x ∨ z ∈ l := by
  intro l
  induction l with
  | nil => intro z; simp [insertLe]
  | cons y ys ih =>
    intro z
    by_cases hy : le y x = true
    · simp only [insertLe, if_pos hy, List.mem_cons, ih z]
      tauto
    · simp only [insertLe, if_neg hy, List.mem_cons]

theorem insertLe_pairwise (le : α → α → Bool)
    (htot : ∀ a b, le a b = true ∨ le b a = true)
    (htrans : ∀ a b c, le a b = true → le b c = true → le a c = true)
    (x : α) :
    ∀ (l : List α), l.Pairwise (fun a b => le a b = true) →
      (insertLe le x l).Pairwise (fun a b => le a b = true) := by
  intro l
  induction l with
  | nil => intro _; simp [insertLe]
  | cons y ys ih =>
    intro hl
    rcases List.pairwise_cons.mp hl with ⟨hy, hys⟩
    by_cases hyx : le y x = true
    · simp only [insertLe, if_pos hyx]
      refine List.pairwise_cons.mpr ⟨?_, ih hys⟩
      intro z hz
      rcases (mem_insertLe le x ys z).mp hz with hz2 | hz2
      · subst hz2
        exact hyx
      · exact hy z hz2
    · simp only [insertLe, if_neg hyx]
      have hxy : le x y = true := by
        rcases htot x y with h | h
        · exact h
        · exact absurd h hyx
      refine List.pairwise_cons.mpr ⟨?_, hl⟩
      intro z hz
      rcases List.mem_cons.mp hz with hz2 | hz2
      · subst hz2
        exact hxy
      · exact htrans x y z hxy (hy z hz2)

theorem sortStableBy_pairwise (le : α → α → Bool)
    (htot : ∀ a b, le a b = true ∨ le b a = true)
    (htrans : ∀ a b c, le a b = true → le b c = true → le a c = true) :
    ∀ (l : List α) (acc : List α), acc.Pairwise (fun a b => le a b = true) →
      (l.foldl (fun a x => insertLe le x a) acc).Pairwise (fun a b => le a b = true) := by
  intro l
  induction l with
  | nil => intro acc h; simpa using h
  | cons x rest ih =>
    intro acc h
    simp only [List.foldl_cons]
    exact ih (insertLe le x acc) (insertLe_pairwise le htot htrans x acc h)

theorem insertLe_filter_neg (le : α → α → Bool) (x : α) (p : α → Bool)
    (hpx : p x = false) :
    ∀ (l : List α), (insertLe le x l).filter p = l.filter p := by
  intro l
  induction l with
  | nil => simp [insertLe, List.filter, hpx]
  | cons y ys ih =>
    by_cases hy : le y x = true
    · simp only [insertLe, if_pos hy, List.filter_cons]
      rw [ih]
    · simp only [insertLe, if_neg hy, List.filter_cons, hpx]
      simp

theorem insertLe_filter_pos (key : α → String) (x : α) (K : String) (hx : key x = K) :
    ∀ (l : List α),
      l.Pairwise (fun a b => strLeB (key a) (key b) = true) →
      (insertLe (fun a b => strLeB (key a) (key b)) x l).filter (fun a => key a = K) =
        l.filter (fun a => key a = K) ++ [x] := by
  intro l
  induction l with
  | nil => intro _; simp [insertLe, List.filter_cons, hx]
  | cons y ys ih =>
    intro hl
    rcases List.pairwise_cons.mp hl with ⟨hy, hys⟩
    by_cases hyx : strLeB (key y) (key x) = true
    · have hstep : insertLe (fun a b => strLeB (key a) (key b)) x (y :: ys) =
          y :: insertLe (fun a b => strLeB (key a) (key b)) x ys := by
        simp [insertLe, hyx]
      rw [hstep, List.filter_cons, List.filter_cons, ih hys]
      by_cases hpy : key y = K
      · simp [hpy]
      · simp [hpy]
    · have hlt : strLtB (key x) (key y) = true := by
        rcases hq : strLtB (key x) (key y) with _ | _
        · exfalso
          apply hyx
          simp [strLeB, hq]
        · rfl
      have hstep : insertLe (fun a b => strLeB (key a) (key b)) x (y :: ys) =
          x :: y :: ys := by
        simp [insertLe, hyx]
      have hnil : (y :: ys).filter (fun a => key a = K) = [] := by
        rw [List.filter_eq_nil_iff]
        intro a ha
        simp only [decide_eq_true_eq]
        intro hk
        rcases List.mem_cons.mp ha with ha2 | ha2
        · subst ha2
          have hne := strLtB_ne (key x) (key a) hlt
          rw [hx, hk] at hne
          exact hne rfl
        · have hya := hy a ha2
          simp only [strLeB, Bool.not_eq_true'] at hya
          rw [hk, ← hx] at hya
          rw [hya] at hlt
          cases hlt
      rw [hstep, List.filter_cons, hnil]
      simp [hx]

theorem sortStableBy_filter_aux (key : α → String) (K : String) :
    ∀ (l acc : List α), acc.Pairwise (fun a b => strLeB (key a) (key b) = true) →
      (l.foldl (fun a x => insertLe (fun p q => strLeB (key p) (key q)) x a) acc).filter
          (fun a => key a = K) =
        acc.filter (fun a => key a = K) ++ l.filter (fun a => key a = K) := by
  intro l
  induction l with
  | nil => intro acc h; simp
  | cons x rest ih =>
    intro acc h
    simp only [List.foldl_cons]
    rw [ih _ (insertLe_pairwise _ (fun a b => strLeB_total (key a) (key b))
      (fun a b c h1 h2 => strLeB_trans (key a) (key b) (key c) h1 h2) x acc h)]
    by_cases hx : key x = K
    · rw [insertLe_filter_pos key x K hx acc h, List.filter_cons]
      simp [hx]
    · rw [insertLe_filter_neg _ x _ (by simp [hx]) acc, List.filter_cons]
      simp [hx]

/-- C6 (amended): the exporter orders conclusion blocks by a stable sort
on the content key alone: the result is sorted by the content key, and
conclusions sharing one content key keep their registry (insertion)
order — there is no identifier tie-break.  Export itself is a pure
function of the model, so exporting the same model twice is always
byte-identical. -/
theorem C6_conclusion_ordering (m : GraphModel) :
    (sortedConclusions m).Pairwise (fun p q => strLeB (concKey p) (concKey q) = true) ∧
    (∀ K, (sortedConclusions m).filter (fun p => concKey p = K) =
      (conclusionsOf m).filter (fun p => concKey p = K)) := by
  constructor
  · exact sortStableBy_pairwise _ (fun a b => strLeB_total (concKey a) (concKey b))
      (fun a b c h1 h2 => strLeB_trans (concKey a) (concKey b) (concKey c) h1 h2)
      (conclusionsOf m) [] (by simp)
  · intro K
    have h := sortStableBy_filter_aux concKey K (conclusionsOf m) [] (by simp)
    simpa [sortedConclusions, sortStableBy] using h

/-- C6 counterexample: two conclusions with equal content C and
identifiers z and a, with z registered first; the exporter numbers z
before a, although the identifier order demands a first, and two models
with the same node set but different registration orders export to
different text. -/
theorem C6_counterexample :
    ((sortedConclusions tieModelA).map (fun p => p.1) = ["z", "a"]) ∧
    (["z", "a"] ≠ (["a", "z"] : List String)) ∧
    tieModelA.nodes.Perm tieModelB.nodes ∧
    tieModelA.links = tieModelB.links ∧
    exportOutline tieModelA ≠ exportOutline tieModelB :=
  ⟨rfl, by decide, by decide, rfl, by decide⟩

/-- C2 (amended): when the link-determination pass succeeds, (i) its
immediate links are exactly one single-source link per non-conclusion,
non-warrant line whose parent number is registered, carrying the resolved
source, the parent node as target and the line polarity defaulting to
supports; (ii) a line whose parent number is unregistered joins the
co-premise group keyed by its parent number and polarity provided its
grandparent exists and is registered as a node (otherwise it is silently
dropped), and the members of every group are exactly the qualifying lines
in original order; (iii) every group member shares the group parent number
and polarity, so lines with distinct parent numbers are never merged; and
(iv) the co-premise pass emits exactly one link per group, with the
resolved member sources in member order targeting the grandparent node. -/
theorem C2_link_determination (lines : List ParsedLine) (nm : NMap) (st2 : LinkState)
    (_hnm : nm = numberMapOf lines)
    (h : linkPass nm LinkState.init lines = .ok st2) :
    st2.links.map linkCore =
      lines.filterMap
        (fun p => (qualifiesSingle nm p).map (fun x => ([x.1], some x.2.1, x.2.2))) ∧
    (∀ key, groupMembers key st2.groups =
      lines.filter (fun p => memberKey nm p = some key)) ∧
    (∀ key, ∀ p ∈ groupMembers key st2.groups,
      getParentNumber p.number = some key.1 ∧ p.polarity.getD "supports" = key.2) ∧
    (groupPass nm st2 st2.groups).links.map linkCore =
      st2.links.map linkCore ++ st2.groups.filterMap (mkGroupCore nm) := by
  refine ⟨?_, ?_, ?_, groupPass_links nm st2.groups st2⟩
  · have h1 := linkPass_links nm lines LinkState.init st2 h
    simpa [LinkState.init] using h1
  · intro key
    have h1 := linkPass_groups nm lines LinkState.init st2 h key
    simpa [LinkState.init, groupMembers] using h1
  · intro key p hp
    have h1 := linkPass_groups nm lines LinkState.init st2 h key
    rw [h1] at hp
    simp only [LinkState.init, groupMembers, List.nil_append] at hp
    have hp2 := List.mem_filter.mp hp
    exact memberKey_parent nm p key (of_decide_eq_true hp2.2)

/-- C2 counterexample: a single non-conclusion, non-warrant line whose
parent number 1 is not registered as a node; the line is silently dropped
rather than joining a co-premise group that yields a link, so the parse
result has a node but no link at all, contradicting the unconditional
second branch of the claim. -/
theorem C2_counterexample :
    (∃ m, parseOutline orphanText = .ok m ∧ m.links = [] ∧ m.nodes ≠ []) ∧
    (∃ st, linkPass (numberMapOf orphanLines) LinkState.init orphanLines = .ok st ∧
      st.groups = [] ∧ st.links = []) ∧
    orphanLines.length = 1 ∧
    orphanLines.all (fun p => !(p.nodeType == "Conclusion") && !p.isWarrant) = true ∧
    dmem "1" (numberMapOf orphanLines) = false :=
  ⟨⟨_, rfl, rfl, by decide⟩, ⟨_, rfl, rfl, rfl⟩, rfl, rfl, rfl⟩

/-- C2 witness: the amended theorem applied to a document with one
single-source line, two co-premise groups separated by polarity, and a
back-reference. -/
theorem C2_witness :
    mixedSt.links.map linkCore =
      mixedLines.filterMap
        (fun p => (qualifiesSingle (numberMapOf mixedLines) p).map
          (fun x => ([x.1], some x.2.1, x.2.2))) ∧
    (∀ key, groupMembers key mixedSt.groups =
      mixedLines.filter (fun p => memberKey (numberMapOf mixedLines) p = some key)) ∧
    (∀ key, ∀ p ∈ groupMembers key mixedSt.groups,
      getParentNumber p.number = some key.1 ∧ p.polarity.getD "supports" = key.2) ∧
    (groupPass (numberMapOf mixedLines) mixedSt mixedSt.groups).links.map linkCore =
      mixedSt.links.map linkCore ++ mixedSt.groups.filterMap
        (mkGroupCore (numberMapOf mixedLines)) :=
  C2_link_determination mixedLines (numberMapOf mixedLines) mixedSt rfl rfl

/-- C4 (amended): (i) looking up an outline number in the registry built
by the node passes yields the id assigned by the LAST line that assigned
that number anywhere in the document, not the first, and assignment is
not restricted to lines preceding the reference; (ii) an unresolvable
back-reference on a non-conclusion, non-warrant line whose number has a
parent raises the parse error naming the missing number and carrying that
line physical number, provided no earlier line already raised; (iii) an
unresolvable back-reference on a warrant line is silently skipped and
contributes nothing. -/
theorem C4_backref_resolution :
    (∀ (lines : List ParsedLine) (n : String),
      dget? n (numberMapOf lines) = lastAssignedId lines n) ∧
    (∀ (nm : NMap) (st : LinkState) (pre post : List ParsedLine) (p : ParsedLine)
      (b : String),
      (∀ q ∈ pre, stepFails nm q = false) →
      p.nodeType ≠ "Conclusion" → p.isWarrant = false →
      (getParentNumber p.number).isSome → p.backref = some b → dget? b nm = none →
      linkPass nm st (pre ++ p :: post) =
        .error (.lineError p.lineNumber (backrefMessage b))) ∧
    (∀ (nm : NMap) (st : LinkState) (p : ParsedLine) (ps : List ParsedLine),
      p.isWarrant = true → resolveOpt nm p = none →
      warrantPass nm st (p :: ps) = warrantPass nm st ps) := by
  refine ⟨?_, ?_, ?_⟩
  · intro lines n
    rw [numberMapOf, buildNodes_nm, dget?_foldl_lastValue, lastAssignedId]
    rcases lastValue n (assignSeq lines) with _ | v
    · simp [dget?]
    · simp
  · intro nm st pre post p b hpre hc hw hpn hb hnone
    exact linkPass_error_at nm pre p post st b hpre hc hw hpn hb hnone
  · intro nm st p ps hw hr
    simp [warrantPass, hw, hr]

/-- C4 counterexample: a document assigning number 1.1 twice (contents P
then Q) and then referencing it; the back-reference link uses the id of
the LAST assignment (the Q node), while the claim demands the id first
assigned to 1.1 (the P node).  In fact every line numbered 1.1 resolves
through the final registry, so all three links carry the Q node as source
and the P node is orphaned. -/
theorem C4_counterexample :
    (parseOutline dupText).isOk = true ∧
    ((parseOutline dupText).toOption.elim [] (fun m => m.links)).map
        (fun q => linkCore q.2) =
      [(["node_2"], some "node_0", "supports"),
       (["node_2"], some "node_0", "supports"),
       (["node_2"], some "node_0", "supports")] ∧
    (assignSeq dupLines).filter (fun kv => kv.1 = "1.1") =
      [("1.1", "node_1"), ("1.1", "node_2")] ∧
    (∃ n1 ∈ (parseOutline dupText).toOption.elim [] (fun m => m.nodes),
      n1.1 = "node_1" ∧ n1.2.content = some "P") ∧
    (∃ n2 ∈ (parseOutline dupText).toOption.elim [] (fun m => m.nodes),
      n2.1 = "node_2" ∧ n2.2.content = some "Q") ∧
    ("node_1" : String) ≠ "node_2" := by
  refine ⟨by decide, by decide, by decide, ?_, ?_, by decide⟩
  · refine ⟨("node_1",
      { id := "node_1", nodeType := "Proposition", content := some "P" }), ?_, rfl, rfl⟩
    decide
  · refine ⟨("node_2",
      { id := "node_2", nodeType := "Proposition", content := some "Q" }), ?_, rfl, rfl⟩
    decide

/-- C4 witness: the amended theorem applied to the duplicate-assignment
document, to a concrete unresolvable non-warrant back-reference line, and
to a concrete unresolvable warrant back-reference line. -/
theorem C4_witness :
    (dget? "1.1" (numberMapOf dupLines) = lastAssignedId dupLines "1.1") ∧
    (linkPass [] LinkState.init ([] ++ unresolvedBackrefLine :: []) =
      .error (.lineError 2 (backrefMessage "9"))) ∧
    (warrantPass [] LinkState.init [skippedWarrantLine] = warrantPass [] LinkState.init []) :=
  ⟨C4_backref_resolution.1 dupLines "1.1",
   C4_backref_resolution.2.1 [] LinkState.init [] [] unresolvedBackrefLine "9"
     (fun q hq => absurd hq (List.not_mem_nil q)) (by decide) rfl rfl rfl rfl,
   C4_backref_resolution.2.2 [] LinkState.init skippedWarrantLine [] rfl rfl⟩

theorem parseLineE_fails (cs : List Char) (n : Nat) (h : lineFails cs = true) :
    parseLineE cs n = .error (.lineError n (malformedMessage cs)) ∨
      ∃ il, parseLineE cs n = .error (.lineError n (indentMessage il)) ∧ il % 3 ≠ 0 := by
  unfold lineFails at h
  rcases hm : matchLineCore cs with _ | tup
  · refine Or.inl ?_
    unfold parseLineE
    rw [hm]
  · rw [hm] at h
    rcases tup with ⟨il, number, b1, b2, cc⟩
    simp only [decide_eq_true_eq] at h
    refine Or.inr ⟨il, ?_, h⟩
    unfold parseLineE
    rw [hm]
    simp only [if_pos h]

theorem parseLineE_ok_of (cs : List Char) (n : Nat) (h : lineFails cs = false) :
    ∃ p, parseLineE cs n = .ok p := by
  unfold lineFails at h
  rcases hm : matchLineCore cs with _ | tup
  · rw [hm] at h
    cases h
  · rw [hm] at h
    rcases tup with ⟨il, number, b1, b2, cc⟩
    simp only [decide_eq_true_eq] at h
    have hil : ¬ (il % 3 ≠ 0) := by
      intro hx
      rw [decide_eq_true hx] at h
      cases h
    unfold parseLineE
    rw [hm]
    simp only [if_neg hil]
    by_cases hb1 : b1 = "Conclusion"
    · rw [if_pos hb1]
      exact ⟨_, rfl⟩
    · rw [if_neg hb1]
      rcases hbr : matchBackref cc with _ | b
      · exact ⟨_, rfl⟩
      · exact ⟨_, rfl⟩

theorem scanLines_first_bad :
    ∀ (ls : List (List Char)) (i j : Nat), j < ls.length →
      blankLine (ls.getD j []) = false → lineFails (ls.getD j []) = true →
      ∃ j0 msg, j0 ≤ j ∧ j0 < ls.length ∧ blankLine (ls.getD j0 []) = false ∧
        lineFails (ls.getD j0 []) = true ∧
        (∀ i2 < j0, blankLine (ls.getD i2 []) = true ∨ lineFails (ls.getD i2 []) = false) ∧
        scanLines i ls = .error (.lineError (i + j0) msg) ∧
        (msg = malformedMessage (ls.getD j0 []) ∨
          ∃ il, msg = indentMessage il ∧ il % 3 ≠ 0) := by
  intro ls
  induction ls with
  | nil =>
    intro i j hj _ _
    cases hj
  | cons l rest ih =>
    intro i j hj hnb hbad
    by_cases hb : l.all isPySpace
    · rcases j with _ | j2
      · rw [List.getD_cons_zero] at hnb
        have hnb2 : l.all isPySpace = false := hnb
        rw [hnb2] at hb
        cases hb
      · rw [List.getD_cons_succ] at hnb hbad
        rcases ih (i + 1) j2 (by simpa using Nat.lt_of_succ_lt_succ hj) hnb hbad with
          ⟨j0, msg, hle, hlen, hb0, hf0, hmin, hscan, hform⟩
        refine ⟨j0 + 1, msg, Nat.succ_le_succ hle, by simpa using Nat.succ_lt_succ hlen,
          by rw [List.getD_cons_succ]; exact hb0,
          by rw [List.getD_cons_succ]; exact hf0, ?_, ?_, ?_⟩
        · intro i2 hi2
          rcases i2 with _ | i3
          · rw [List.getD_cons_zero]
            exact Or.inl hb
          · rw [List.getD_cons_succ]
            exact hmin i3 (Nat.lt_of_succ_lt_succ hi2)
        · rw [scanLines, if_pos hb, hscan]
          congr 1
          congr 1
          omega
        · rw [List.getD_cons_succ]
          exact hform
    · have hbl : blankLine l = false := by
        rcases hx : l.all isPySpace with _ | _
        · exact hx
        · exact absurd hx hb
      by_cases hf : lineFails l = true
      · refine ⟨0, ?_⟩
        rcases parseLineE_fails l i hf with hform | ⟨il, hform, hil⟩
        · refine ⟨malformedMessage l, Nat.zero_le j, Nat.succ_pos rest.length,
            by rw [List.getD_cons_zero]; exact hbl,
            by rw [List.getD_cons_zero]; exact hf,
            fun i2 hi2 => absurd hi2 (Nat.not_lt_zero i2), ?_, ?_⟩
          · rw [scanLines, if_neg hb, hform]
            simp
          · rw [List.getD_cons_zero]
            exact Or.inl rfl
        · refine ⟨indentMessage il, Nat.zero_le j, Nat.succ_pos rest.length,
            by rw [List.getD_cons_zero]; exact hbl,
            by rw [List.getD_cons_zero]; exact hf,
            fun i2 hi2 => absurd hi2 (Nat.not_lt_zero i2), ?_, ?_⟩
          · rw [scanLines, if_neg hb, hform]
            simp
          · exact Or.inr ⟨il, rfl, hil⟩
      · have hf2 : lineFails l = false := by
          rcases hx : lineFails l with _ | _
          · rfl
          · exact absurd hx hf
        rcases j with _ | j2
        · rw [List.getD_cons_zero] at hbad
          rw [hbad] at hf2
          cases hf2
        · rw [List.getD_cons_succ] at hnb hbad
          rcases ih (i + 1) j2 (by simpa using Nat.lt_of_succ_lt_succ hj) hnb hbad with
            ⟨j0, msg, hle, hlen, hb0, hf0, hmin, hscan, hform⟩
          rcases parseLineE_ok_of l i hf2 with ⟨p, hp⟩
          refine ⟨j0 + 1, msg, Nat.succ_le_succ hle, by simpa using Nat.succ_lt_succ hlen,
            by rw [List.getD_cons_succ]; exact hb0,
            by rw [List.getD_cons_succ]; exact hf0, ?_, ?_, ?_⟩
          · intro i2 hi2
            rcases i2 with _ | i3
            · rw [List.getD_cons_zero]
              exact Or.inr hf2
            · rw [List.getD_cons_succ]
              exact hmin i3 (Nat.lt_of_succ_lt_succ hi2)
          · rw [scanLines, if_neg hb, hp, hscan]
            simp only
            congr 1
            congr 1
            omega
          · rw [List.getD_cons_succ]
            exact hform

/-- C9: for every input whose physical line at 0-based index j is
non-blank and either fails the line grammar or has an indentation that is
not a multiple of three, parse raises an OutlineParseError at the first
such offending line, carrying its 1-based physical line number (blank
lines are skipped but never shift the numbering) and one of the two
explicit human-readable messages, the malformed-line message quoting the
line or the invalid-indentation message naming the offending indent
width. -/
theorem C9_line_errors (text : String) (j : Nat)
    (hj : j < (splitOnChar '\n' text.data).length)
    (hnb : blankLine ((splitOnChar '\n' text.data).getD j []) = false)
    (hbad : lineFails ((splitOnChar '\n' text.data).getD j []) = true) :
    ∃ j0 msg, j0 ≤ j ∧ j0 < (splitOnChar '\n' text.data).length ∧
      blankLine ((splitOnChar '\n' text.data).getD j0 []) = false ∧
      lineFails ((splitOnChar '\n' text.data).getD j0 []) = true ∧
      (∀ i2 < j0, blankLine ((splitOnChar '\n' text.data).getD i2 []) = true ∨
        lineFails ((splitOnChar '\n' text.data).getD i2 []) = false) ∧
      parseOutline text = .error (.lineError (j0 + 1) msg) ∧
      (msg = malformedMessage ((splitOnChar '\n' text.data).getD j0 []) ∨
        ∃ il, msg = indentMessage il ∧ il % 3 ≠ 0) := by
  rcases scanLines_first_bad (splitOnChar '\n' text.data) 1 j hj hnb hbad with
    ⟨j0, msg, hle, hlen, hb0, hf0, hmin, hscan, hform⟩
  refine ⟨j0, msg, hle, hlen, hb0, hf0, hmin, ?_, hform⟩
  have hpo : parseOutline text = .error (.lineError (1 + j0) msg) := by
    unfold parseOutline
    rw [hscan]
  rw [hpo, Nat.add_comm 1 j0]

/-- C1 (code bug): the round-trip counterexample evaluated on the code.
The graph rtModel has four nodes with pairwise distinct contents, an
acyclic union graph (certified by an explicit topological order), and two
links: a two-source link into the conclusion and a warrant link targeting
it.  Exporting produces warrantOutlineText, and re-parsing that text
succeeds but yields only one link: the warrant link is silently dropped,
so parse(export(G)) is not isomorphic to G. -/
theorem C1_roundtrip_warrant_loss :
    (rtNodes.map (fun n => n.content)).Nodup ∧
    respectsOrder rtModel.edges ["A", "B", "W", "L2", "L1", "X"] = true ∧
    rtModel.links.length = 2 ∧
    exportOutline rtModel = warrantOutlineText ∧
    (parseOutline (exportOutline rtModel)).isOk = true ∧
    ((parseOutline (exportOutline rtModel)).toOption.elim [] (fun m => m.links)).length = 1 ∧
    ((parseOutline (exportOutline rtModel)).toOption.elim [] (fun m => m.nodes)).length = 4 :=
  ⟨by decide, rfl, rfl, rfl, rfl, rfl, rfl⟩

/-- C3 (code bug): on a co-premise group with a warrant attached to the
group number, the determination passes record the group link id only
against the first member number 1.1.1 and not against the group parent
number 1.1, so the warrant pass finds nothing under 1.1 and emits no link:
the parse result has exactly one link (the group link), and the claimed
supports-link targeting the group link id does not exist. -/
theorem C3_warrant_group_attachment :
    dget? "1.1.1" warrantSt2.nlid = some "link_0" ∧
    dget? "1.1" warrantSt2.nlid = none ∧
    warrantSt3.links = warrantSt2.links ∧
    warrantSt3.links.map linkCore = [(["node_1", "node_2"], some "node_0", "supports")] ∧
    warrantLines.any (fun p => p.isWarrant) = true ∧
    (parseOutline warrantOutlineText).isOk = true ∧
    ((parseOutline warrantOutlineText).toOption.elim [] (fun m => m.links)).length = 1 :=
  ⟨rfl, rfl, rfl, rfl, rfl, rfl, rfl⟩

/-- C9 witness: the theorem applied to a document whose second line is
indented by four spaces. -/
theorem C9_witness :
    ∃ j0 msg, j0 ≤ 1 ∧ j0 < (splitOnChar '\n' badIndentText.data).length ∧
      blankLine ((splitOnChar '\n' badIndentText.data).getD j0 []) = false ∧
      lineFails ((splitOnChar '\n' badIndentText.data).getD j0 []) = true ∧
      (∀ i2 < j0, blankLine ((splitOnChar '\n' badIndentText.data).getD i2 []) = true ∨
        lineFails ((splitOnChar '\n' badIndentText.data).getD i2 []) = false) ∧
      parseOutline badIndentText = .error (.lineError (j0 + 1) msg) ∧
      (msg = malformedMessage ((splitOnChar '\n' badIndentText.data).getD j0 []) ∨
        ∃ il, msg = indentMessage il ∧ il % 3 ≠ 0) :=
  C9_line_errors badIndentText 1 (by decide) (by decide) (by decide)

end Argviz
